import Mathlib

/-!
Verification development for the BeerBot backend (Go).

The definitions below are a shallow embedding of the repository's source:
* the SQLite-backed store (`SQLiteStore` methods: `TryMarkEventProcessed`,
  `MarkEventProcessed`, `AddBeer`, `CountGivenInDateRange`,
  `CountReceivedInDateRange`, `CountGivenOnDate`, `IncEmoji`, `migrate`, ...),
* the Slack event handler built by `buildEventHandler` (bot/slack.go),
* `MinimalSlackBot.processBeerGiving` and its helpers,
* the reconnect loop of `SlackConnectionManager.StartWithReconnection`.

Modelling conventions:
* SQL `TEXT` values are Lean `String`s.
* `time.Time` values reach the store only as (a) the RFC3339 string stored in
  `ts_rfc` and (b) the calendar day `date(ts_rfc)` used by the range queries.
  Queries compare `date(...)` results, i.e. `YYYY-MM-DD` strings, with SQLite
  text ordering (bytewise), embedded as `String` `<`/`=`.  A row therefore
  carries its day string directly, and wall-clock inputs (`time.Now()` etc.)
  become explicit day/string parameters of the embedded functions.
* Fallible database calls are modelled with an explicit fault oracle
  `Nat → Bool` (call index ↦ "this Exec/Query returns an error"), mirroring
  that any `database/sql` call may fail; a failed call leaves the database
  unchanged (the statement did not commit).
* Go `int` is embedded as `Int`.
-/

/-- One row of the `beers` table: `(giver_id, recipient_id, ts, ts_rfc, count)`.
`day` is `date(ts_rfc)`, the only view of `ts_rfc` the queries use. -/
structure BeerRow where
  giver : String
  recipient : String
  ts : String
  day : String
  count : Int
deriving Repr, DecidableEq

/-- An audit row written by `RecordBeerEventOutcome` (its implementation is not
among the provided sources; see `recordBeerEventOutcome`). -/
structure OutcomeRow where
  eventId : String
  giver : String
  recipient : String
  quantity : Int
  status : String
  ts : String
deriving Repr, DecidableEq

/-- The post-migration database state seen by the store's read/write methods:
the `processed_events` table (event_id UNIQUE, with its `ts` column), the
`beers` table and the `emoji_counts` table. -/
structure DB where
  processedEvents : List (String × String)
  beers : List BeerRow
  emojiCounts : List ((String × String) × Int)
  outcomeRecords : List OutcomeRow
deriving Repr, DecidableEq

def DB.empty : DB := ⟨[], [], [], []⟩

/-- Does `processed_events` contain a row with the given `event_id`? -/
def containsEvent (db : DB) (k : String) : Bool :=
  db.processedEvents.any (fun p => p.1 = k)

/-- `SELECT ts FROM processed_events WHERE event_id = k` (the marker row). -/
def lookupProcessed (db : DB) (k : String) : Option String :=
  (db.processedEvents.find? (fun p => p.1 = k)).map (fun p => p.2)

/-- `SQLiteStore.TryMarkEventProcessed`: `INSERT OR IGNORE INTO processed_events
(event_id, ts) VALUES (?, ?)`; returns `RowsAffected > 0`, i.e. `true` exactly
when the key was not present and the row was inserted. -/
def tryMarkEventProcessed (db : DB) (k ts : String) : Bool × DB :=
  if containsEvent db k then (false, db)
  else (true, { db with processedEvents := db.processedEvents ++ [(k, ts)] })

/-- `SQLiteStore.MarkEventProcessed`: the same `INSERT OR IGNORE`, result
discarded. -/
def markEventProcessed (db : DB) (k ts : String) : DB :=
  (tryMarkEventProcessed db k ts).2

/-- `SQLiteStore.AddBeer`: `INSERT INTO beers ... ON CONFLICT(giver_id,
recipient_id, ts) DO UPDATE SET count = excluded.count`.  On conflict only
`count` is replaced (last write wins); `ts_rfc` keeps its stored value. -/
def addBeer (db : DB) (giver recipient ts day : String) (count : Int) : DB :=
  if db.beers.any (fun r => r.giver = giver ∧ r.recipient = recipient ∧ r.ts = ts) then
    { db with beers := db.beers.map (fun r =>
        if r.giver = giver ∧ r.recipient = recipient ∧ r.ts = ts then
          { r with count := count }
        else r) }
  else
    { db with beers := db.beers ++ [⟨giver, recipient, ts, day, count⟩] }

/-- The stored `count` for the uniqueness key `(giver, recipient, ts)`. -/
def lookupBeer (db : DB) (giver recipient ts : String) : Option Int :=
  (db.beers.find? (fun r => r.giver = giver ∧ r.recipient = recipient ∧ r.ts = ts)).map
    (fun r => r.count)

/-- SQLite text `<=` on two `date(...)` results (bytewise comparison of
`YYYY-MM-DD` strings). -/
def dayLe (a b : String) : Bool := a < b ∨ a = b

/-- `SQLiteStore.CountGivenInDateRange`: `SELECT COALESCE(SUM(count), 0) FROM
beers WHERE giver_id = ? AND date(ts_rfc) BETWEEN date(?) AND date(?)`.
An empty match set sums to `NULL`, coalesced to `0`. -/
def countGivenInDateRange (db : DB) (giver startDay endDay : String) : Int :=
  ((db.beers.filter (fun r =>
      r.giver = giver ∧ dayLe startDay r.day ∧ dayLe r.day endDay)).map
    (fun r => r.count)).sum

/-- `SQLiteStore.CountReceivedInDateRange`: as above with `recipient_id = ?`. -/
def countReceivedInDateRange (db : DB) (recipient startDay endDay : String) : Int :=
  ((db.beers.filter (fun r =>
      r.recipient = recipient ∧ dayLe startDay r.day ∧ dayLe r.day endDay)).map
    (fun r => r.count)).sum

/-- `SQLiteStore.CountGivenOnDate`: parses the `YYYY-MM-DD` date and delegates
to `CountGivenInDateRange(giver, t, t)`.  Callers in the sources only pass
`time.Now().UTC().Format("2006-01-02")`, which always parses, so the parse
step is elided and the day string is passed through. -/
def countGivenOnDate (db : DB) (giver day : String) : Int :=
  countGivenInDateRange db giver day day

/-- `SQLiteStore.IncEmoji`: UPDATE `count = count + 1`, INSERT `1` if no row. -/
def incEmoji (db : DB) (userId emoji : String) : DB :=
  if db.emojiCounts.any (fun p => p.1 = (userId, emoji)) then
    { db with emojiCounts := db.emojiCounts.map (fun p =>
        if p.1 = (userId, emoji) then (p.1, p.2 + 1) else p) }
  else
    { db with emojiCounts := db.emojiCounts ++ [((userId, emoji), 1)] }

/-- `SQLiteStore.GetCount`. -/
def getCount (db : DB) (userId emoji : String) : Int :=
  ((db.emojiCounts.find? (fun p => p.1 = (userId, emoji))).map (fun p => p.2)).getD 0

/-- `SQLiteStore.GetAllGivers`: `SELECT DISTINCT giver_id FROM beers`. -/
def getAllGivers (db : DB) : List String :=
  (db.beers.map (fun r => r.giver)).dedup

/-- `SQLiteStore.GetAllRecipients`. -/
def getAllRecipients (db : DB) : List String :=
  (db.beers.map (fun r => r.recipient)).dedup

/-- Modelled from the spec: `RecordBeerEventOutcome` appears in the `Store`
interface and is called (result discarded) by `MinimalSlackBot`, but its
implementation is not among the provided sources.  The spec's data model has
only the gift ledger and the dedup markers, and outcomes are "observable only
via counters", so it is modelled as appending an audit record that touches
neither the `beers` nor the `processed_events` table. -/
def recordBeerEventOutcome (db : DB) (eventId giver recipient : String)
    (quantity : Int) (status ts : String) : DB :=
  { db with outcomeRecords :=
      db.outcomeRecords ++ [⟨eventId, giver, recipient, quantity, status, ts⟩] }

/-- The store operations of `SQLiteStore` (reads return values without touching
state; only the mutating ones appear, reads are identities on `DB`). -/
inductive StoreOp where
  | tryMark (k ts : String)
  | markProcessed (k ts : String)
  | isProcessed (k : String)
  | addBeerOp (giver recipient ts day : String) (count : Int)
  | incEmojiOp (userId emoji : String)
  | getCountOp (userId emoji : String)
  | countGivenOp (giver a b : String)
  | countReceivedOp (recipient a b : String)
  | countGivenOnDateOp (giver day : String)
  | getAllGiversOp
  | getAllRecipientsOp
  | recordOutcomeOp (eventId giver recipient : String) (quantity : Int) (status ts : String)

/-- State effect of each store operation (`SELECT`s leave the state as is). -/
def applyStoreOp (db : DB) : StoreOp → DB
  | .tryMark k ts => (tryMarkEventProcessed db k ts).2
  | .markProcessed k ts => markEventProcessed db k ts
  | .isProcessed _ => db
  | .addBeerOp g r ts day c => addBeer db g r ts day c
  | .incEmojiOp u e => incEmoji db u e
  | .getCountOp _ _ => db
  | .countGivenOp _ _ _ => db
  | .countReceivedOp _ _ _ => db
  | .countGivenOnDateOp _ _ => db
  | .getAllGiversOp => db
  | .getAllRecipientsOp => db
  | .recordOutcomeOp e g r q s ts => recordBeerEventOutcome db e g r q s ts

/-- A sequence of `TryMarkEventProcessed(k, ·)` calls against the same store:
the list of returned `claimed` booleans together with the final state. -/
def runTryMarks (db : DB) (k : String) : List String → List Bool × DB
  | [] => ([], db)
  | ts :: rest =>
    let step := tryMarkEventProcessed db k ts
    let tail := runTryMarks step.2 k rest
    (step.1 :: tail.1, tail.2)

/-! ## Text scanning (the regex uses in `buildEventHandler`)

`buildEventHandler` locates mention spans with `regexp.MustCompile("<@([A-Z0-9]+)>")`
(`FindAllStringSubmatch` / `FindAllStringSubmatchIndex`) and marker spans with
the quoted emoji literal (`FindAllStringIndex`).  Both produce successive
leftmost non-overlapping matches; for these patterns that is the simple
left-to-right scan embedded below.  Go reports byte offsets; the embedding uses
character offsets, which order span endpoints identically (byte offsets are a
strictly monotone function of character offsets at UTF-8 boundaries), and only
order comparisons between offsets are ever consumed. -/

/-- Character class `[A-Z0-9]` of the mention pattern. -/
def isIdChar (c : Char) : Bool := ('A' ≤ c ∧ c ≤ 'Z') ∨ ('0' ≤ c ∧ c ≤ '9')

/-- A mention match: half-open span `[start, stop)` and the captured user id. -/
structure MentionSpan where
  start : Nat
  stop : Nat
  id : String
deriving Repr, DecidableEq

/-- If `<@([A-Z0-9]+)>` matches at the head of `cs`, the match length and the
captured group.  The run is maximal (`+` is greedy and `>` is outside the
class, so no shorter run can be followed by `>`). -/
def mentionAt (cs : List Char) : Option (Nat × String) :=
  match cs with
  | '<' :: '@' :: rest =>
    if (rest.takeWhile isIdChar) ≠ []
        ∧ (rest.drop (rest.takeWhile isIdChar).length).head? = some '>' then
      some ((rest.takeWhile isIdChar).length + 3, String.mk (rest.takeWhile isIdChar))
    else none
  | _ => none

/-- Left-to-right scan for all non-overlapping mention matches (fuelled for
structural recursion; the callers pass `cs.length`, which is always enough). -/
def findMentionsFuel : Nat → List Char → Nat → List MentionSpan
  | 0, _, _ => []
  | _ + 1, [], _ => []
  | fuel + 1, c :: rest, pos =>
    match mentionAt (c :: rest) with
    | some (len, id) =>
      ⟨pos, pos + len, id⟩ :: findMentionsFuel fuel ((c :: rest).drop len) (pos + len)
    | none => findMentionsFuel fuel rest (pos + 1)

/-- `mentionRe.FindAllStringSubmatchIndex(text, -1)` paired with the captures. -/
def findMentions (text : List Char) : List MentionSpan :=
  findMentionsFuel text.length text 0

/-- Does `pat` occur at the head of `cs`? (literal match, as produced by
`regexp.QuoteMeta(emoji)`). -/
def litHere : List Char → List Char → Bool
  | [], _ => true
  | _ :: _, [] => false
  | p :: ps, c :: cs => p = c ∧ litHere ps cs

/-- Left-to-right scan for all non-overlapping literal occurrences of `pat`:
`emojiRe.FindAllStringIndex(text, -1)`.  Start offsets of the matches. -/
def findOccsFuel (pat : List Char) : Nat → List Char → Nat → List Nat
  | 0, _, _ => []
  | _ + 1, [], _ => []
  | fuel + 1, c :: rest, pos =>
    if litHere pat (c :: rest) then
      let skip := max pat.length 1
      pos :: findOccsFuel pat fuel ((c :: rest).drop skip) (pos + skip)
    else findOccsFuel pat fuel rest (pos + 1)

def findOccs (pat text : List Char) : List Nat :=
  findOccsFuel pat text.length text 0

/-- The inner selection loop of `buildEventHandler`: for one marker occurrence
starting at `estart`, walk all mention spans keeping `lastMentionIdx` (initially
`-1`) and `recipientID` (initially `""`):
`if emojiIdx[0] > mentionIdx[1] { if mentionIdx[0] > lastMentionIdx { ... } }`. -/
def selLoop (estart : Nat) : List MentionSpan → Int → String → String
  | [], _, acc => acc
  | m :: rest, lastIdx, acc =>
    if estart > m.stop ∧ (m.start : Int) > lastIdx then
      selLoop estart rest (m.start : Int) m.id
    else
      selLoop estart rest lastIdx acc

/-- The recipient the handler's loop attributes a marker at `estart` to
(`""` when no mention qualifies). -/
def codeSel (ms : List MentionSpan) (estart : Nat) : String :=
  selLoop estart ms (-1) ""

/-- `recipientBeers[recipientID]++` on the Go map, embedded as an insertion
ordered association list with unique keys (iteration order of the Go map is
unspecified; no claim depends on it, only on the final counts). -/
def bumpAssoc (l : List (String × Nat)) (k : String) : List (String × Nat) :=
  if l.any (fun p => p.1 = k) then
    l.map (fun p => if p.1 = k then (p.1, p.2 + 1) else p)
  else l ++ [(k, 1)]

/-- The count stored for key `k` (`0` when absent). -/
def assocCount (l : List (String × Nat)) (k : String) : Nat :=
  ((l.find? (fun p => p.1 = k)).map (fun p => p.2)).getD 0

/-- The `recipientBeers` map built by `buildEventHandler`: one unit per marker
occurrence, attributed by `codeSel`, skipped when it yields `""`. -/
def recipientBeersList (ms : List MentionSpan) (es : List Nat) : List (String × Nat) :=
  es.foldl (fun acc e =>
    let r := codeSel ms e
    if r ≠ "" then bumpAssoc acc r else acc) []

/-- `totalBeersToGive`: the sum of the per-recipient counts. -/
def totalUnits (ms : List MentionSpan) (es : List Nat) : Nat :=
  ((recipientBeersList ms es).map (fun p => p.2)).sum

/-- The handler's per-message recipient ↦ units mapping, from the raw text. -/
def beerCount (text emoji : List Char) (r : String) : Nat :=
  assocCount (recipientBeersList (findMentions text) (findOccs emoji text)) r

/-! ## The event handler built by `buildEventHandler` (bot/slack.go 198-337)

The embedding covers the `MessageEvent` path.  Wall-clock inputs become
parameters: `markerTs` (the `time.Now()` written into the dedup marker),
`today` (`time.Now().UTC().Format("2006-01-02")`) and `eventDay` (the day of
the row's `ts_rfc`, i.e. of `parseSlackTimestamp(ev.TimeStamp)` or `time.Now()`
as a fallback).  The fault oracle indexes the store calls of one event:
call `0` is `TryMarkEventProcessed`, call `1` is `CountGivenOnDate`, and call
`2 + j` is the `j`-th `AddBeer` of the write loop. -/

structure MsgEvent where
  channel : String
  user : String
  subType : String
  text : String
  timeStamp : String
deriving Repr, DecidableEq

structure HandlerOut where
  db : DB
  outcomes : List String
  posts : List String
deriving Repr, DecidableEq

/-- The fault-free oracle (every store call succeeds). -/
def noFaults : Nat → Bool := fun _ => false

/-- The dedup key: the transport envelope id when present, otherwise the
synthetic `msg|channel|user|ts` key. -/
def eventIdOf (ev : MsgEvent) (envelopeID : String) : String :=
  if envelopeID ≠ "" then envelopeID
  else "msg|" ++ ev.channel ++ "|" ++ ev.user ++ "|" ++ ev.timeStamp

/-- The `for recipient, count := range recipientBeers` write loop:
each `AddBeer` failure is logged with outcome `store_error` and the loop
continues with the next recipient. -/
def writeBeers (db : DB) (user ts eventDay : String)
    (rb : List (String × Nat)) (oracle : Nat → Bool) : DB × List String :=
  (rb.enum).foldl (fun acc me =>
    if oracle (2 + me.1) then (acc.1, acc.2 ++ ["store_error"])
    else (addBeer acc.1 user me.2.1 ts eventDay (me.2.2 : Int), acc.2)) (db, [])

/-- The quota-rejection reply for a reached daily limit. -/
def limitReachedMsg (user : String) (maxPerDay : Int) : String :=
  "Sorry <@" ++ user ++ ">, you have reached your daily limit of " ++
    toString maxPerDay ++ " beers."

/-- The quota-rejection reply when the request exceeds the remaining allowance. -/
def exceededMsg (user : String) (total allowed : Int) : String :=
  "Sorry <@" ++ user ++ ">, you are trying to give " ++ toString total ++
    " beers, but you only have " ++ toString allowed ++ " left for today."

/-- The part of the handler after the dedup gate: mention/marker parsing, the
quota decision and the write loop (bot/slack.go 238-327), acting on the
post-claim state `db1`. -/
def handleParsed (maxPerDay : Int) (user ts today eventDay : String)
    (oracle : Nat → Bool) (db1 : DB) (ms : List MentionSpan) (es : List Nat) :
    HandlerOut :=
  if ms = [] ∨ es = [] then
    ⟨db1, [if ms = [] then "no_mentions" else "no_emoji"], []⟩
  else
    let rb := recipientBeersList ms es
    let total : Int := (totalUnits ms es : Int)
    if total = 0 then ⟨db1, ["zero_total"], []⟩
    else if oracle 1 then ⟨db1, ["count_error"], []⟩
    else
      let givenToday := countGivenOnDate db1 user today
      if givenToday ≥ maxPerDay then
        ⟨db1, ["limit_reached"], [limitReachedMsg user maxPerDay]⟩
      else
        let allowed := maxPerDay - givenToday
        if total > allowed then
          ⟨db1, ["exceeded_allowed"], [exceededMsg user total allowed]⟩
        else
          let w := writeBeers db1 user ts eventDay rb oracle
          ⟨w.1, w.2 ++ ["stored"], []⟩

/-- The message-event branch of the closure returned by `buildEventHandler`:
the channel/user/subtype guards and the dedup gate, then `handleParsed`.
`outcomes` collects the `IncBeerOutcome` labels in order; `posts` the
`client.PostMessage` texts. -/
def handleMessage (channelID emoji : String) (maxPerDay : Int) (ev : MsgEvent)
    (envelopeID markerTs today eventDay : String) (oracle : Nat → Bool)
    (db : DB) : HandlerOut :=
  if ev.channel = channelID ∧ ev.user ≠ "" then
    if ev.subType ≠ "" then ⟨db, ["subtype"], []⟩
    else
      let eventID := eventIdOf ev envelopeID
      if eventID ≠ "" ∧ oracle 0 then ⟨db, ["event_mark_error"], []⟩
      else if eventID ≠ "" ∧ (tryMarkEventProcessed db eventID markerTs).1 = false then
        ⟨db, ["duplicate"], []⟩
      else
        let db1 := if eventID ≠ "" then (tryMarkEventProcessed db eventID markerTs).2 else db
        handleParsed maxPerDay ev.user ev.timeStamp today eventDay oracle db1
          (findMentions ev.text.toList) (findOccs emoji.toList ev.text.toList)
  else ⟨db, [], []⟩

/-! ## `MinimalSlackBot` (the event processor wired up by `main`)

`processBeerGiving` and its helpers `extractRecipient` / `extractQuantity`.
Store-call fault oracle for one event: call `0` is `TryMarkEventProcessed`,
call `1` is `AddBeer` (the discarded `RecordBeerEventOutcome` calls are not
given fault indices: their errors are ignored by the code). -/

/-- `extractRecipient`: `FindStringSubmatch` of `<@([A-Z0-9]+)>`, i.e. the
capture of the first mention, `""` when there is none. -/
def extractRecipient (text : List Char) : String :=
  match findMentions text with
  | [] => ""
  | m :: _ => m.id

/-- Go `\w` (word character) for the boundary assertions of `\b(\d+)\b`. -/
def isWordChar (c : Char) : Bool :=
  ('0' ≤ c ∧ c ≤ '9') ∨ ('A' ≤ c ∧ c ≤ 'Z') ∨ ('a' ≤ c ∧ c ≤ 'z') ∨ c = '_'

def isDigitChar (c : Char) : Bool := '0' ≤ c ∧ c ≤ '9'

/-- `FindAllString` of `\b(\d+)\b`: maximal digit runs whose neighbours (when
present) are not word characters.  `prev` is the character just before `cs`. -/
def findNumTokensFuel : Nat → Option Char → List Char → List (List Char)
  | 0, _, _ => []
  | _ + 1, _, [] => []
  | fuel + 1, prev, c :: rest =>
    if isDigitChar c ∧ ¬(∃ p, prev = some p ∧ isWordChar p) then
      let run := (c :: rest).takeWhile isDigitChar
      let rest2 := (c :: rest).drop run.length
      if (∃ n, rest2.head? = some n ∧ isWordChar n) then
        -- no word boundary after the run: not a match, resume after the run
        findNumTokensFuel fuel (run.getLast? ) rest2
      else
        run :: findNumTokensFuel fuel (run.getLast?) rest2
    else
      findNumTokensFuel fuel (some c) rest

def findNumTokens (text : List Char) : List (List Char) :=
  findNumTokensFuel text.length none text

/-- Digits to the `Atoi` value (tokens are nonempty digit runs; runs whose
value exceeds the `num <= 10` bound are skipped either way, so `Atoi` overflow
on very long runs is indistinguishable). -/
def digitsToNat (ds : List Char) : Nat :=
  ds.foldl (fun acc c => acc * 10 + (c.toNat - '0'.toNat)) 0

/-- `extractQuantity`: the first numeral in `(0, 10]`; otherwise the number of
beer pictographs when in `[1, 10]`; otherwise `1`. -/
def extractQuantity (text : List Char) : Nat :=
  match (findNumTokens text).find? (fun ds =>
      0 < digitsToNat ds ∧ digitsToNat ds ≤ 10) with
  | some ds => digitsToNat ds
  | none =>
    let beerChars := (text.filter (fun c => c = '🍺' ∨ c = '🍻')).length
    if 0 < beerChars ∧ beerChars ≤ 10 then beerChars else 1

structure PBGEvent where
  channel : String
  user : String
  text : String
  eventTimeStamp : String
deriving Repr, DecidableEq

structure PBGOut where
  db : DB
  status : Option String
  ephemerals : List String
  confirmations : List String
deriving Repr, DecidableEq

/-- `MinimalSlackBot.processBeerGiving` (src/unnamed/part_004 274-360).
`eventDay` abstracts `parseSlackTS(event.EventTimeStamp)` as in
`handleMessage`. -/
def processBeerGiving (maxGift : Nat) (readOnly : Bool) (ev : PBGEvent)
    (envelopeID eventDay : String) (oracle : Nat → Bool) (db : DB) : PBGOut :=
  let dedupKey := if envelopeID ≠ "" then envelopeID else ev.eventTimeStamp
  if oracle 0 then
    ⟨recordBeerEventOutcome db dedupKey ev.user "" 0 "error" eventDay,
      some "dedup_error", [], []⟩
  else
    let mark := tryMarkEventProcessed db dedupKey eventDay
    if mark.1 = false then
      ⟨recordBeerEventOutcome db dedupKey ev.user "" 0 "duplicate" eventDay,
        some "duplicate", [], []⟩
    else
      let db1 := mark.2
      let recipient := extractRecipient ev.text.toList
      if recipient = "" then
        ⟨recordBeerEventOutcome db1 dedupKey ev.user "" 0 "invalid_recipient" eventDay,
          some "invalid_recipient",
          ["⚠️ Could not find a valid recipient in your beer message."], []⟩
      else
        let q0 := extractQuantity ev.text.toList
        let quantity := if q0 > maxGift then maxGift else q0
        if recipient = ev.user then
          ⟨recordBeerEventOutcome db1 dedupKey ev.user recipient (quantity : Int)
              "self_gift" eventDay,
            some "self_gift",
            ["🍺 You can't gift beer to yourself. Find a teammate!"], []⟩
        else if readOnly then
          ⟨recordBeerEventOutcome db1 dedupKey ev.user recipient (quantity : Int)
              "success" eventDay,
            some "success", [], ["confirmation"]⟩
        else if oracle 1 then
          ⟨recordBeerEventOutcome db1 dedupKey ev.user recipient (quantity : Int)
              "error" eventDay,
            some "storage_error", [], []⟩
        else
          let db2 := addBeer db1 ev.user recipient ev.eventTimeStamp eventDay (quantity : Int)
          ⟨recordBeerEventOutcome db2 dedupKey ev.user recipient (quantity : Int)
              "success" eventDay,
            some "success", [], ["confirmation"]⟩

/-! ## `SQLiteStore.migrate` (startup schema migration)

The migration runs against a database whose `beers` table may be absent or
legacy-shaped, so its state is modelled separately from the post-migration
`DB`.  SQLite semantics embedded here: `CREATE TABLE` fails when a table of
that name already exists; `CREATE TABLE IF NOT EXISTS` / `DROP TABLE IF
EXISTS` never fail for that reason; every statement between `Begin` and
`Commit` is buffered and discarded by `Rollback`, so a committed state is
either the pre-transaction state or the state after all buffered statements.
The fault oracle is indexed by call site (each `Exec`/`Query`/`Begin`/`Commit`
of `migrate` has a fixed index, listed inline). -/

/-- A row of a possibly-legacy `beers` table; `day` is `date(ts_rfc)` and is
`none` while `ts_rfc` is NULL (or the column does not exist yet). -/
structure LegacyRow where
  giver : String
  recipient : String
  ts : String
  day : Option String
  count : Int
deriving Repr, DecidableEq

/-- The `beers` table with its structural properties: whether its stored
`CREATE TABLE` sql contains `UNIQUE`, and which of the required columns
exist. -/
structure BeersTable where
  sqlHasUnique : Bool
  hasTsRfc : Bool
  hasCount : Bool
  rows : List LegacyRow
deriving Repr, DecidableEq

/-- The schema the `desiredCreate` statement produces (fresh, empty, with the
`UNIQUE (giver_id, recipient_id, ts)` constraint). -/
def desiredBeersTable : BeersTable := ⟨true, true, true, []⟩

/-- Database state as `migrate` sees it. -/
structure SchemaDB where
  beersTab : Option BeersTable
  processedEvents : List (String × String)
  emojiCounts : List ((String × String) × Int)
deriving Repr, DecidableEq

structure MigResult where
  db : SchemaDB
  err : Option String
deriving Repr, DecidableEq

/-- `substr(ts, 1, instr(ts, '.') - 1)` parsed as unix seconds: the digits
before the first `'.'`; `none` when there is no `'.'` or they are not a
number (then `datetime(..., 'unixepoch')` yields NULL). -/
def tsTokenSeconds (ts : String) : Option Nat :=
  if (ts.toList.any (fun c => c = '.')) then
    let sec := ts.toList.takeWhile (fun c => c ≠ '.')
    if sec ≠ [] ∧ sec.all isDigitChar then some (digitsToNat sec) else none
  else none

/-- Civil date (year, month, day) of a day count since 1970-01-01
(Hinnant's algorithm, non-negative day counts). -/
def civilFromDays (z0 : Nat) : Nat × Nat × Nat :=
  let z := z0 + 719468
  let era := z / 146097
  let doe := z % 146097
  let yoe := (doe - doe / 1460 + doe / 36524 - doe / 146096) / 365
  let y := yoe + era * 400
  let doy := doe - (365 * yoe + yoe / 4 - yoe / 100)
  let mp := (5 * doy + 2) / 153
  let d := doy - (153 * mp + 2) / 5 + 1
  let m := if mp < 10 then mp + 3 else mp - 9
  (if m ≤ 2 then y + 1 else y, m, d)

def pad2 (n : Nat) : String := if n < 10 then "0" ++ toString n else toString n

/-- `date(datetime(seconds, 'unixepoch'))` as a `YYYY-MM-DD` string. -/
def dayOfUnixSeconds (s : Nat) : String :=
  let c := civilFromDays (s / 86400)
  toString c.1 ++ "-" ++ pad2 c.2.1 ++ "-" ++ pad2 c.2.2

/-- The backfill expression of the copy statement:
`COALESCE(ts_rfc, datetime(substr(ts,1,instr(ts,'.')-1), 'unixepoch'))`,
viewed through `date(...)`. -/
def backfillDay (r : LegacyRow) : Option String :=
  match r.day with
  | some d => some d
  | none => (tsTokenSeconds r.ts).map dayOfUnixSeconds

/-- `GROUP BY giver_id, recipient_id, ts` with `SUM(count)`, keys in order of
first appearance, the non-aggregated `ts_rfc` taken from the group's first
row (SQLite picks an arbitrary row of the group for a bare column). -/
def aggregateRows (rows : List LegacyRow) : List LegacyRow :=
  (rows.foldl (fun acc r =>
    if acc.any (fun a => a.giver = r.giver ∧ a.recipient = r.recipient ∧ a.ts = r.ts) then
      acc.map (fun a =>
        if a.giver = r.giver ∧ a.recipient = r.recipient ∧ a.ts = r.ts then
          { a with count := a.count + r.count }
        else a)
    else acc ++ [r]) [])

/-- The transactional rebuild of `migrate` (the branch taken when the stored
create sql lacks `UNIQUE`): `Begin`; `desiredCreate`; the aggregated copy;
`DROP TABLE IF EXISTS beers`; the error-ignored rename; `Commit` — with
rollback to the pre-transaction state on any failing step.  Oracle sites:
`8` Begin, `9` create, `10` copy, `11` drop, `12` rename (its error is
discarded by the code), `13` commit. -/
def rebuildTx (oracle : Nat → Bool) (sdb : SchemaDB) : MigResult :=
  if oracle 8 then ⟨sdb, some "migrate begin tx"⟩
  else
    -- s9 `desiredCreate`: `CREATE TABLE beers (...)` — fails when `beers` exists
    if oracle 9 ∨ (sdb.beersTab).isSome then ⟨sdb, some "migrate create beers_new"⟩
    else
      let tx1 : SchemaDB := { sdb with beersTab := some desiredBeersTable }
      -- s10 copy: insert the aggregation of `beers` into `beers`; `ts_rfc` is
      -- NOT NULL in the new schema, so a NULL backfill fails the statement
      let src := ((tx1.beersTab).map (fun t => t.rows)).getD []
      let agg := aggregateRows src
      if oracle 10 ∨ agg.any (fun r => (backfillDay r).isNone) then
        ⟨sdb, some "migrate copy aggregated"⟩
      else
        let copied := agg.map (fun r => { r with day := backfillDay r, count := r.count })
        let tx2 : SchemaDB :=
          { tx1 with
            beersTab := (tx1.beersTab).map (fun t => { t with rows := t.rows ++ copied }) }
        if oracle 11 then ⟨sdb, some "migrate drop old beers"⟩
        else
          let tx3 : SchemaDB := { tx2 with beersTab := none }
          -- s12 `ALTER TABLE beers RENAME TO beers_old`: `beers` was just
          -- dropped, so this errors; the code discards the error either way
          let tx4 : SchemaDB := tx3
          if oracle 13 then ⟨sdb, some "migrate commit recreate"⟩
          else ⟨tx4, none⟩

/-- `ALTER TABLE beers ADD COLUMN ts_rfc DATETIME` when the column is missing
(the added column is nullable, so every existing row gets a NULL `ts_rfc`). -/
def alterTsRfc (t : BeersTable) : BeersTable :=
  if t.hasTsRfc then t
  else { t with hasTsRfc := true, rows := t.rows.map (fun r => { r with day := none }) }

/-- `ALTER TABLE beers ADD COLUMN count INTEGER NOT NULL DEFAULT 1` when the
column is missing (every existing row gets count `1`). -/
def alterCount (t : BeersTable) : BeersTable :=
  if t.hasCount then t
  else { t with hasCount := true, rows := t.rows.map (fun r => { r with count := 1 }) }

/-- `SQLiteStore.migrate`.  Oracle sites: `0`/`1` the auxiliary
`CREATE TABLE IF NOT EXISTS` statements (state-preserving in this model, whose
auxiliary tables always exist), `2` the `sqlite_master` existence check, `3`
the fresh `desiredCreate`, `4` the `PRAGMA table_info` query, `5`/`6` the two
`ALTER TABLE ... ADD COLUMN` statements, `7` the `sqlite_master` create-sql
query, `8`-`13` the rebuild transaction. -/
def migrateRun (oracle : Nat → Bool) (sdb : SchemaDB) : MigResult :=
  if oracle 0 ∨ oracle 1 then ⟨sdb, some "migrate exec"⟩
  else if oracle 2 then ⟨sdb, some "migrate check beers exists"⟩
  else
    match sdb.beersTab with
    | none =>
      if oracle 3 then ⟨sdb, some "migrate create beers"⟩
      else ⟨{ sdb with beersTab := some desiredBeersTable }, none⟩
    | some t =>
      if oracle 4 then ⟨sdb, some "migrate pragma"⟩
      else if ¬t.hasTsRfc ∧ oracle 5 then ⟨sdb, some "migrate add ts_rfc"⟩
      else
        let s1 : SchemaDB := { sdb with beersTab := some (alterTsRfc t) }
        if ¬(alterTsRfc t).hasCount ∧ oracle 6 then ⟨s1, some "migrate add count"⟩
        else
          let s2 : SchemaDB := { sdb with beersTab := some (alterCount (alterTsRfc t)) }
          if oracle 7 then ⟨s2, some "migrate select create sql"⟩
          else if ¬(alterCount (alterTsRfc t)).sqlHasUnique then rebuildTx oracle s2
          else ⟨s2, none⟩

/-! ## `SlackConnectionManager.StartWithReconnection` (bot/slack.go 89-149)

One iteration of the reconnect loop, as a function of `reconnectCount` and of
the outcome of this iteration's connection attempt.  Durations are in
nanoseconds (`time.Duration`, an `int64`).  The float-to-integer conversion
`time.Duration(math.Pow(2, float64(n)))` is exactly `2 ^ n` for `n ≤ 62`
(`math.Pow(2, n)` is an exact power of two and fits `int64`); the iterations
quantified over here keep `n ≤ 62` so that conversion never hits the
implementation-defined out-of-range case.  The subsequent `* time.Second`
multiplication, however, is Go `int64` arithmetic and wraps around
(two's complement) from `n = 34` on, since `2 ^ 34 * 10 ^ 9 > 2 ^ 63 - 1`. -/

/-- Two's-complement wraparound of an integer into `int64`, the semantics Go
gives an overflowing signed multiplication. -/
def wrapInt64 (x : Int) : Int := (x + 2 ^ 63) % 2 ^ 64 - 2 ^ 63

/-- `time.Duration(math.Pow(2, float64(reconnectCount))) * time.Second`: the
conversion yields the exact `int64` value `2 ^ n` (for `n ≤ 62`), and the
multiplication by `10 ^ 9` wraps in `int64`. -/
def reconnectDelayNanos (n : Nat) : Int := wrapInt64 ((2 ^ n : Int) * 1000000000)

/-- `maxReconnectDelay = 5 * time.Minute`. -/
def maxReconnectDelayNanos : Int := 5 * 60 * 1000000000

/-- The `delay` value after the cap: `if delay > maxReconnectDelay { delay =
maxReconnectDelay }`.  A wrapped-negative delay fails this check and is kept. -/
def cappedDelayNanos (n : Nat) : Int :=
  if reconnectDelayNanos n > maxReconnectDelayNanos then maxReconnectDelayNanos
  else reconnectDelayNanos n

/-- The duration handed to `time.After` at the top of an iteration: the capped
delay is only used inside `if scm.reconnectCount > 0 { ... <-time.After(delay)
... }`; with a zero counter the iteration proceeds immediately. -/
def iterationDelayNanos (n : Nat) : Int :=
  if 0 < n then cappedDelayNanos n else 0

/-- The time actually waited: `time.After` fires immediately on a non-positive
duration, so a wrapped-negative delay waits nothing. -/
def waitedNanos (n : Nat) : Int := max (iterationDelayNanos n) 0

/-- What this iteration's connection attempt did: `AuthTest` failed; or the
socket session ran and ended with an error; or it ended gracefully
(`RunContext` returned nil). -/
inductive ConnOutcome where
  | testFailed
  | runErrored
  | runStopped
deriving Repr, DecidableEq

/-- `reconnectCount` after one iteration: `scm.reconnectCount++` when the
connection test fails; otherwise it is set to `0` on connecting and then
incremented once more only when the session ends with an error. -/
def nextReconnectCount (n : Nat) : ConnOutcome → Nat
  | .testFailed => n + 1
  | .runErrored => 0 + 1
  | .runStopped => 0

/-- The value `reconnectCount` holds at the moment `setConnected(true)` runs
(`none` when this iteration never connects): the code sets it to `0` right at
the transition into Connected. -/
def countAtConnect : ConnOutcome → Option Nat
  | .testFailed => none
  | .runErrored => some 0
  | .runStopped => some 0

/-! ## Spec-worded selectors for the Recipient-Gift Associator

For the refinement comparison of claim C2, two selectors written from the
spec's words rather than from the code: the mention with the greatest end
offset among those ending at-or-before / strictly-before the marker start. -/

/-- The mention with the greatest end offset among those satisfying `qual`. -/
def bestByStop (qual : MentionSpan → Bool) (ms : List MentionSpan) : Option MentionSpan :=
  ms.foldl (fun best m =>
    if qual m then
      match best with
      | none => some m
      | some b => if b.stop < m.stop then some m else some b
    else best) none

/-- Claim wording: "the mention occurrence whose end offset is the greatest
value still less than or equal to the marker's start offset". -/
def specSelLe (ms : List MentionSpan) (estart : Nat) : Option MentionSpan :=
  bestByStop (fun m => m.stop ≤ estart) ms

/-- Amended wording: greatest end offset strictly less than the marker's
start offset. -/
def specSelStrict (ms : List MentionSpan) (estart : Nat) : Option MentionSpan :=
  bestByStop (fun m => m.stop < estart) ms

/-- Units the claim's (non-strict) rule attributes to recipient `r` in `text`. -/
def specLeCount (text emoji : List Char) (r : String) : Nat :=
  ((findOccs emoji text).filter (fun e =>
    (specSelLe (findMentions text) e).map (fun m => m.id) = some r)).length

/-- Units the amended (strict) rule attributes to recipient `r` in `text`. -/
def specStrictCount (text emoji : List Char) (r : String) : Nat :=
  ((findOccs emoji text).filter (fun e =>
    (specSelStrict (findMentions text) e).map (fun m => m.id) = some r)).length

/-! ## Helper lemmas -/

theorem find?_append_left {α} (p : α → Bool) (l₁ l₂ : List α) (a : α)
    (h : l₁.find? p = some a) : (l₁ ++ l₂).find? p = some a := by
  induction l₁ with
  | nil => simp [List.find?] at h
  | cons b t ih =>
    rw [List.cons_append]
    by_cases hb : p b
    · rw [List.find?_cons_of_pos _ hb] at h ⊢
      exact h
    · rw [List.find?_cons_of_neg _ (by simpa using hb)] at h ⊢
      exact ih h

theorem lookupProcessed_tryMark (db : DB) (k ts k' : String) (v : String)
    (h : lookupProcessed db k' = some v) :
    lookupProcessed (tryMarkEventProcessed db k ts).2 k' = some v := by
  unfold tryMarkEventProcessed
  split
  · exact h
  · unfold lookupProcessed at h ⊢
    simp only
    rcases ho : db.processedEvents.find? (fun p => p.1 = k') with _ | a
    · rw [ho] at h
      simp at h
    · rw [ho] at h
      rw [find?_append_left _ _ _ _ ho]
      exact h

theorem tryMark_beers (db : DB) (k ts : String) :
    ((tryMarkEventProcessed db k ts).2).beers = db.beers := by
  unfold tryMarkEventProcessed
  split <;> rfl

theorem tryMark_emojiCounts (db : DB) (k ts : String) :
    ((tryMarkEventProcessed db k ts).2).emojiCounts = db.emojiCounts := by
  unfold tryMarkEventProcessed
  split <;> rfl

theorem addBeer_processedEvents (db : DB) (g r ts day : String) (c : Int) :
    (addBeer db g r ts day c).processedEvents = db.processedEvents := by
  unfold addBeer
  split <;> rfl

theorem incEmoji_processedEvents (db : DB) (u e : String) :
    (incEmoji db u e).processedEvents = db.processedEvents := by
  unfold incEmoji
  split <;> rfl

theorem containsEvent_after_tryMark (db : DB) (k ts : String) :
    containsEvent (tryMarkEventProcessed db k ts).2 k = true := by
  unfold tryMarkEventProcessed
  split
  · next h => exact h
  · simp [containsEvent]

theorem tryMark_false_of_contains (db : DB) (k ts : String)
    (h : containsEvent db k = true) : (tryMarkEventProcessed db k ts).1 = false := by
  unfold tryMarkEventProcessed
  rw [if_pos h]

theorem runTryMarks_all_false (k : String) (tss : List String) :
    ∀ db : DB, containsEvent db k = true →
      (runTryMarks db k tss).1 = List.replicate tss.length false := by
  induction tss with
  | nil => intro db _; rfl
  | cons t rest ih =>
    intro db h
    have hfalse := tryMark_false_of_contains db k t h
    have hdb : (tryMarkEventProcessed db k t).2 = db := by
      unfold tryMarkEventProcessed
      rw [if_pos h]
    simp only [runTryMarks]
    rw [hfalse, hdb, ih db h]
    simp [List.replicate_succ]


theorem rebuildTx_of_some (oracle : Nat → Bool) (sdb : SchemaDB) (t : BeersTable)
    (h : sdb.beersTab = some t) :
    rebuildTx oracle sdb =
      if oracle 8 = true then ⟨sdb, some "migrate begin tx"⟩
      else ⟨sdb, some "migrate create beers_new"⟩ := by
  unfold rebuildTx
  by_cases h8 : oracle 8 = true
  · rw [if_pos h8, if_pos h8]
  · rw [if_neg h8, if_neg h8, if_pos (Or.inr (by rw [h]; rfl))]

theorem migrateRun_processedEvents (oracle : Nat → Bool) (sdb : SchemaDB) :
    ((migrateRun oracle sdb).db).processedEvents = sdb.processedEvents := by
  cases hb : sdb.beersTab with
  | none =>
    simp only [migrateRun, hb]
    split_ifs <;> rfl
  | some t =>
    simp only [migrateRun, hb]
    split_ifs <;>
      first
        | rfl
        | (rw [rebuildTx_of_some _ _ _ rfl]; split_ifs <;> rfl)

/-- C1: against a store that does not yet hold the event key `k`, the first
`TryMarkEventProcessed(k, ·)` of any sequence of such calls returns
`claimed = true` and every later one returns `claimed = false`; a
`ProcessedEventMarker` row, once present, is returned unchanged after any
store operation, and the startup migration never touches the
`processed_events` rows either. -/
theorem c1_dedup_exactly_once (db : DB) (k : String) (tss : List String)
    (hfresh : containsEvent db k = false) (hne : tss ≠ []) :
    (runTryMarks db k tss).1 = true :: List.replicate (tss.length - 1) false
    ∧ (∀ (s : DB) (v : String) (op : StoreOp), lookupProcessed s k = some v →
        lookupProcessed (applyStoreOp s op) k = some v)
    ∧ (∀ (oracle : Nat → Bool) (sdb : SchemaDB),
        ((migrateRun oracle sdb).db).processedEvents = sdb.processedEvents) := by
  refine ⟨?_, ?_, fun oracle sdb => migrateRun_processedEvents oracle sdb⟩
  · match tss with
    | [] => exact absurd rfl hne
    | t :: rest =>
      have hclaim : (tryMarkEventProcessed db k t).1 = true := by
        unfold tryMarkEventProcessed
        rw [if_neg (by simp [hfresh])]
      simp only [runTryMarks]
      rw [hclaim, runTryMarks_all_false k rest _ (containsEvent_after_tryMark db k t)]
      simp
  · intro s v op h
    cases op with
    | tryMark k' ts => exact lookupProcessed_tryMark s k' ts k v h
    | markProcessed k' ts => exact lookupProcessed_tryMark s k' ts k v h
    | isProcessed _ => exact h
    | addBeerOp g r ts day c =>
      show lookupProcessed (addBeer s g r ts day c) k = some v
      unfold lookupProcessed at h ⊢
      rw [addBeer_processedEvents]
      exact h
    | incEmojiOp u e =>
      show lookupProcessed (incEmoji s u e) k = some v
      unfold lookupProcessed at h ⊢
      rw [incEmoji_processedEvents]
      exact h
    | getCountOp _ _ => exact h
    | countGivenOp _ _ _ => exact h
    | countReceivedOp _ _ _ => exact h
    | countGivenOnDateOp _ _ => exact h
    | getAllGiversOp => exact h
    | getAllRecipientsOp => exact h
    | recordOutcomeOp _ _ _ _ _ _ => exact h

theorem c1_dedup_exactly_once_witness :
    containsEvent DB.empty "evt1" = false ∧ (["t1", "t2", "t3"] : List String) ≠ []
    ∧ ((runTryMarks DB.empty "evt1" ["t1", "t2", "t3"]).1
        = true :: List.replicate ((["t1", "t2", "t3"] : List String).length - 1) false
      ∧ (∀ (s : DB) (v : String) (op : StoreOp), lookupProcessed s "evt1" = some v →
          lookupProcessed (applyStoreOp s op) "evt1" = some v)
      ∧ (∀ (oracle : Nat → Bool) (sdb : SchemaDB),
          ((migrateRun oracle sdb).db).processedEvents = sdb.processedEvents)) :=
  ⟨by decide, by decide,
    c1_dedup_exactly_once DB.empty "evt1" ["t1", "t2", "t3"] (by decide) (by decide)⟩

/-- C10: when no `beers` row matches the user and the (inclusive) day range,
`CountGivenInDateRange` and `CountReceivedInDateRange` return `0` (the SQL
`SUM` of an empty set is NULL, and the queries coalesce it to `0`) with no
error. -/
theorem c10_empty_range_zero (db : DB) (u a b : String)
    (hg : ∀ r ∈ db.beers, ¬(r.giver = u ∧ dayLe a r.day ∧ dayLe r.day b))
    (hr : ∀ r ∈ db.beers, ¬(r.recipient = u ∧ dayLe a r.day ∧ dayLe r.day b)) :
    countGivenInDateRange db u a b = 0 ∧ countReceivedInDateRange db u a b = 0 := by
  constructor
  · unfold countGivenInDateRange
    rw [List.filter_eq_nil_iff.mpr (by intro r hmem; simpa using hg r hmem)]
    rfl
  · unfold countReceivedInDateRange
    rw [List.filter_eq_nil_iff.mpr (by intro r hmem; simpa using hr r hmem)]
    rfl

theorem c10_empty_range_zero_witness :
    (∀ r ∈ (DB.empty).beers, ¬(r.giver = "U9" ∧ dayLe "2026-01-01" r.day ∧ dayLe r.day "2026-01-31"))
    ∧ (∀ r ∈ (DB.empty).beers, ¬(r.recipient = "U9" ∧ dayLe "2026-01-01" r.day ∧ dayLe r.day "2026-01-31"))
    ∧ (countGivenInDateRange DB.empty "U9" "2026-01-01" "2026-01-31" = 0
      ∧ countReceivedInDateRange DB.empty "U9" "2026-01-01" "2026-01-31" = 0) :=
  ⟨by simp [DB.empty], by simp [DB.empty],
    c10_empty_range_zero DB.empty "U9" "2026-01-01" "2026-01-31"
      (by simp [DB.empty]) (by simp [DB.empty])⟩

theorem alterTsRfc_sqlHasUnique (t : BeersTable) :
    (alterTsRfc t).sqlHasUnique = t.sqlHasUnique := by
  unfold alterTsRfc
  split <;> rfl

theorem alterCount_sqlHasUnique (t : BeersTable) :
    (alterCount t).sqlHasUnique = t.sqlHasUnique := by
  unfold alterCount
  split <;> rfl

theorem migrateRun_noFaults_of_noUnique (sdb : SchemaDB) (t : BeersTable)
    (hex : sdb.beersTab = some t) (hnu : t.sqlHasUnique = false) :
    migrateRun noFaults sdb =
      ⟨{ sdb with beersTab := some (alterCount (alterTsRfc t)) },
        some "migrate create beers_new"⟩ := by
  simp only [migrateRun, hex]
  rw [rebuildTx_of_some noFaults _ (alterCount (alterTsRfc t)) rfl]
  simp [noFaults, alterTsRfc_sqlHasUnique, alterCount_sqlHasUnique, hnu]

/-- C4: when the `beers` table exists but its create sql lacks the uniqueness
constraint, the transactional rebuild fails (its very first statement,
`CREATE TABLE beers (...)`, collides with the existing table) and rolls back,
whatever else fails: after any run the committed state is exactly the
pre-transaction state, the `beers` table is present after the whole of
`migrate` under any fault pattern, and a fault-free `migrate` returns the
create-collision error leaving the database exactly as it was whenever the
legacy table already had the `ts_rfc` and `count` columns. -/
theorem c4_rebuild_failure_preserves (oracle : Nat → Bool) (sdb : SchemaDB) (t : BeersTable)
    (hex : sdb.beersTab = some t) (hnu : t.sqlHasUnique = false) :
    ((rebuildTx oracle sdb).err).isSome = true
    ∧ (rebuildTx oracle sdb).db = sdb
    ∧ (((migrateRun oracle sdb).db).beersTab).isSome = true
    ∧ (migrateRun noFaults sdb).err = some "migrate create beers_new"
    ∧ (t.hasTsRfc = true → t.hasCount = true → (migrateRun noFaults sdb).db = sdb) := by
  have hreb := rebuildTx_of_some oracle sdb t hex
  refine ⟨?_, ?_, ?_, ?_, ?_⟩
  · rw [hreb]
    split_ifs <;> rfl
  · rw [hreb]
    split_ifs <;> rfl
  · simp only [migrateRun, hex]
    split_ifs <;>
      first
        | simp [hex]
        | (rw [rebuildTx_of_some _ _ _ rfl]; split_ifs <;> rfl)
  · rw [migrateRun_noFaults_of_noUnique sdb t hex hnu]
  · intro hTs hCt
    rw [migrateRun_noFaults_of_noUnique sdb t hex hnu]
    have h1 : alterTsRfc t = t := by
      unfold alterTsRfc
      rw [if_pos hTs]
    have h2 : alterCount t = t := by
      unfold alterCount
      rw [if_pos hCt]
    simp only [h1, h2, ← hex]

theorem c4_rebuild_failure_preserves_witness :
    (⟨some ⟨false, true, true, [⟨"A", "B", "7.0", some "1970-01-01", 2⟩]⟩,
        [("e", "t")], []⟩ : SchemaDB).beersTab
      = some ⟨false, true, true, [⟨"A", "B", "7.0", some "1970-01-01", 2⟩]⟩
    ∧ (⟨false, true, true, [⟨"A", "B", "7.0", some "1970-01-01", 2⟩]⟩ : BeersTable).sqlHasUnique = false
    ∧ (((rebuildTx noFaults ⟨some ⟨false, true, true, [⟨"A", "B", "7.0", some "1970-01-01", 2⟩]⟩,
          [("e", "t")], []⟩).err).isSome = true
      ∧ (rebuildTx noFaults ⟨some ⟨false, true, true, [⟨"A", "B", "7.0", some "1970-01-01", 2⟩]⟩,
          [("e", "t")], []⟩).db
          = ⟨some ⟨false, true, true, [⟨"A", "B", "7.0", some "1970-01-01", 2⟩]⟩, [("e", "t")], []⟩
      ∧ (((migrateRun noFaults ⟨some ⟨false, true, true, [⟨"A", "B", "7.0", some "1970-01-01", 2⟩]⟩,
          [("e", "t")], []⟩).db).beersTab).isSome = true
      ∧ (migrateRun noFaults ⟨some ⟨false, true, true, [⟨"A", "B", "7.0", some "1970-01-01", 2⟩]⟩,
          [("e", "t")], []⟩).err = some "migrate create beers_new"
      ∧ ((⟨false, true, true, [⟨"A", "B", "7.0", some "1970-01-01", 2⟩]⟩ : BeersTable).hasTsRfc = true →
          (⟨false, true, true, [⟨"A", "B", "7.0", some "1970-01-01", 2⟩]⟩ : BeersTable).hasCount = true →
          (migrateRun noFaults ⟨some ⟨false, true, true, [⟨"A", "B", "7.0", some "1970-01-01", 2⟩]⟩,
            [("e", "t")], []⟩).db
            = ⟨some ⟨false, true, true, [⟨"A", "B", "7.0", some "1970-01-01", 2⟩]⟩, [("e", "t")], []⟩)) :=
  ⟨rfl, rfl,
    c4_rebuild_failure_preserves noFaults _ _ rfl rfl⟩

/-- C5: on the spec's legacy scenario — a `beers` table without the uniqueness
constraint holding rows `(A, B, "100.0")` with quantities `1` and `2` — the
code's migration does NOT succeed: its rebuild step executes `CREATE TABLE
beers (...)` while `beers` still exists (the statement the code's own comment
calls "create beers_new"), so `migrate` returns an error, `NewSQLiteStore`
fails and startup aborts; the two rows are left unaggregated.  The third
conjunct shows the aggregation the copy statement would have produced — the
spec's expected single row with quantity `3` — underlining that the failure is
a slip, not intent. -/
theorem c5_migration_rebuild_always_fails :
    (migrateRun noFaults
        ⟨some ⟨false, true, true,
          [⟨"A", "B", "100.0", some "1970-01-01", 1⟩,
           ⟨"A", "B", "100.0", some "1970-01-01", 2⟩]⟩, [], []⟩).err
      = some "migrate create beers_new"
    ∧ (migrateRun noFaults
        ⟨some ⟨false, true, true,
          [⟨"A", "B", "100.0", some "1970-01-01", 1⟩,
           ⟨"A", "B", "100.0", some "1970-01-01", 2⟩]⟩, [], []⟩).db
      = ⟨some ⟨false, true, true,
          [⟨"A", "B", "100.0", some "1970-01-01", 1⟩,
           ⟨"A", "B", "100.0", some "1970-01-01", 2⟩]⟩, [], []⟩
    ∧ aggregateRows
        [⟨"A", "B", "100.0", some "1970-01-01", 1⟩,
         ⟨"A", "B", "100.0", some "1970-01-01", 2⟩]
      = [⟨"A", "B", "100.0", some "1970-01-01", 3⟩] := by
  decide

/-- C9 counterexample: the claimed formula `min(base·2^attempt, cap)` fails
twice over.  At attempt counter `0`, which the loop reaches both on the very
first iteration and right after a graceful socket stop
(`nextReconnectCount _ runStopped = 0`), the code waits no time at all (the
wait is guarded by `reconnectCount > 0`), while the formula prescribes `1s`.
And at counter `34` the `int64` multiplication `2^34 s * 10^9` wraps to the
negative value `-1266874889709551616 ns`; the negative delay is not `>` the
cap so the cap branch leaves it, and `time.After` on it fires immediately —
the code waits `0`, not the `5min` the formula prescribes. -/
theorem c9_delay_formula_counterexample :
    nextReconnectCount 5 ConnOutcome.runStopped = 0
    ∧ iterationDelayNanos 0 = 0
    ∧ min ((2 ^ (0 : Nat) : Int) * 1000000000) maxReconnectDelayNanos = 1000000000
    ∧ reconnectDelayNanos 34 = -1266874889709551616
    ∧ iterationDelayNanos 34 = -1266874889709551616
    ∧ waitedNanos 34 = 0
    ∧ min ((2 ^ (34 : Nat) : Int) * 1000000000) maxReconnectDelayNanos = 300000000000 := by
  refine ⟨rfl, rfl, by decide, ?_, ?_, ?_, by decide⟩ <;> decide

/-- C9 amended: for every attempt counter value `1 ≤ n ≤ 33` the waited delay
is `min(1s · 2^n, 5min)` (`2^33 s · 10^9 < 2^63` so no wraparound occurs in
that band, and the float→int64 conversion of `math.Pow(2, n)` is exact); with
counter `0` the attempt proceeds immediately; from `n = 34` the formula breaks
down — at `34` the wrapped delay is negative and nothing is waited; the
counter is set to `0` at every transition into Connected and is incremented by
exactly one on every failed connection test, and an errored session leaves it
at `0 + 1 = 1`. -/
theorem c9_backoff_amended (n : Nat) (h1 : 1 ≤ n) (h33 : n ≤ 33) :
    iterationDelayNanos n = min ((2 ^ n : Int) * 1000000000) maxReconnectDelayNanos
    ∧ waitedNanos n = min ((2 ^ n : Int) * 1000000000) maxReconnectDelayNanos
    ∧ iterationDelayNanos 0 = 0
    ∧ iterationDelayNanos 34 < 0 ∧ waitedNanos 34 = 0
    ∧ (∀ o, o ≠ ConnOutcome.testFailed → countAtConnect o = some 0)
    ∧ (∀ m, nextReconnectCount m ConnOutcome.testFailed = m + 1)
    ∧ (∀ m, nextReconnectCount m ConnOutcome.runErrored = 0 + 1) := by
  have hpowle : (2 : Int) ^ n ≤ 2 ^ 33 := pow_le_pow_right₀ (by norm_num) h33
  have hge : (0 : Int) ≤ (2 ^ n : Int) * 1000000000 := by positivity
  have hlt : ((2 ^ n : Int) * 1000000000) < 2 ^ 63 := by
    calc (2 ^ n : Int) * 1000000000
        ≤ (2 ^ 33 : Int) * 1000000000 := by
          exact mul_le_mul_of_nonneg_right hpowle (by norm_num)
      _ < 2 ^ 63 := by norm_num
  have hnowrap : reconnectDelayNanos n = (2 ^ n : Int) * 1000000000 := by
    unfold reconnectDelayNanos wrapInt64
    have h63 : ((2 : Int) ^ 63 : Int) = 9223372036854775808 := by norm_num
    have h64 : ((2 : Int) ^ 64 : Int) = 18446744073709551616 := by norm_num
    rw [h63, h64] at *
    rw [Int.emod_eq_of_lt (by omega) (by omega)]
    omega
  have hiter : iterationDelayNanos n
      = min ((2 ^ n : Int) * 1000000000) maxReconnectDelayNanos := by
    unfold iterationDelayNanos cappedDelayNanos
    rw [if_pos (by omega : 0 < n), hnowrap]
    rcases lt_or_ge maxReconnectDelayNanos ((2 ^ n : Int) * 1000000000) with h | h
    · rw [if_pos h, min_eq_right (le_of_lt h)]
    · rw [if_neg (not_lt.mpr h), min_eq_left h]
  refine ⟨hiter, ?_, rfl, by decide, by decide, ?_, fun m => rfl, fun m => rfl⟩
  · unfold waitedNanos
    rw [hiter, max_eq_left]
    exact le_min hge (by norm_num [maxReconnectDelayNanos])
  · intro o ho
    cases o with
    | testFailed => exact absurd rfl ho
    | runErrored => rfl
    | runStopped => rfl

theorem c9_backoff_amended_witness :
    1 ≤ 9 ∧ 9 ≤ 33
    ∧ (iterationDelayNanos 9 = min ((2 ^ (9 : Nat) : Int) * 1000000000) maxReconnectDelayNanos
      ∧ waitedNanos 9 = min ((2 ^ (9 : Nat) : Int) * 1000000000) maxReconnectDelayNanos
      ∧ iterationDelayNanos 0 = 0
      ∧ iterationDelayNanos 34 < 0 ∧ waitedNanos 34 = 0
      ∧ (∀ o, o ≠ ConnOutcome.testFailed → countAtConnect o = some 0)
      ∧ (∀ m, nextReconnectCount m ConnOutcome.testFailed = m + 1)
      ∧ (∀ m, nextReconnectCount m ConnOutcome.runErrored = 0 + 1)) :=
  ⟨by decide, by decide, c9_backoff_amended 9 (by decide) (by decide)⟩

theorem eventIdOf_ne_empty (ev : MsgEvent) (envelopeID : String) :
    eventIdOf ev envelopeID ≠ "" := by
  unfold eventIdOf
  split
  · assumption
  · intro hcontra
    have hlen := congrArg String.length hcontra
    simp [String.length_append] at hlen
    exact (by decide : ¬("msg|".length = 0)) hlen.1.1.1.1.1

theorem writeBeers_fold_outcomes (user ts day : String) (oracle : Nat → Bool)
    (l : List (Nat × (String × Nat))) :
    ∀ (acc : DB × List String) (x : String),
      x ∈ (l.foldl (fun acc me =>
        if oracle (2 + me.1) then (acc.1, acc.2 ++ ["store_error"])
        else (addBeer acc.1 user me.2.1 ts day (me.2.2 : Int), acc.2)) acc).2 →
      x ∈ acc.2 ∨ x = "store_error" := by
  induction l with
  | nil => intro acc x hx; exact Or.inl hx
  | cons a rest ih =>
    intro acc x hx
    rw [List.foldl_cons] at hx
    rcases ih _ x hx with h | h
    · by_cases ho : oracle (2 + a.1) = true
      · rw [if_pos ho] at h
        rcases List.mem_append.mp h with h2 | h2
        · exact Or.inl h2
        · exact Or.inr (List.mem_singleton.mp h2)
      · rw [if_neg ho] at h
        exact Or.inl h
    · exact Or.inr h

theorem writeBeers_outcome_labels (db : DB) (user ts day : String)
    (rb : List (String × Nat)) (oracle : Nat → Bool) :
    ∀ x ∈ (writeBeers db user ts day rb oracle).2, x = "store_error" := by
  intro x hx
  rcases writeBeers_fold_outcomes user ts day oracle rb.enum (db, []) x hx with h | h
  · simp at h
  · exact h

theorem writeBeers_fold_processedEvents (user ts day : String) (oracle : Nat → Bool)
    (l : List (Nat × (String × Nat))) :
    ∀ (acc : DB × List String),
      ((l.foldl (fun acc me =>
        if oracle (2 + me.1) then (acc.1, acc.2 ++ ["store_error"])
        else (addBeer acc.1 user me.2.1 ts day (me.2.2 : Int), acc.2)) acc).1).processedEvents
      = (acc.1).processedEvents := by
  induction l with
  | nil => intro acc; rfl
  | cons a rest ih =>
    intro acc
    rw [List.foldl_cons, ih]
    by_cases ho : oracle (2 + a.1) = true
    · rw [if_pos ho]
    · rw [if_neg ho]
      exact addBeer_processedEvents _ _ _ _ _ _

theorem writeBeers_processedEvents (db : DB) (user ts day : String)
    (rb : List (String × Nat)) (oracle : Nat → Bool) :
    ((writeBeers db user ts day rb oracle).1).processedEvents = db.processedEvents :=
  writeBeers_fold_processedEvents user ts day oracle rb.enum (db, [])

theorem countGivenOnDate_congr (a b : DB) (h : a.beers = b.beers) (g d : String) :
    countGivenOnDate a g d = countGivenOnDate b g d := by
  unfold countGivenOnDate countGivenInDateRange
  rw [h]

theorem handleParsed_rejection_beers (maxPerDay : Int) (user ts today eventDay : String)
    (oracle : Nat → Bool) (db1 : DB) (ms : List MentionSpan) (es : List Nat)
    (hrej : "limit_reached" ∈ (handleParsed maxPerDay user ts today eventDay oracle db1 ms es).outcomes
      ∨ "exceeded_allowed" ∈ (handleParsed maxPerDay user ts today eventDay oracle db1 ms es).outcomes) :
    (handleParsed maxPerDay user ts today eventDay oracle db1 ms es).db.beers = db1.beers := by
  simp only [handleParsed] at hrej ⊢
  split_ifs at hrej ⊢ <;> try rfl
  exfalso
  rcases hrej with h | h <;>
    (simp only [List.mem_append, List.mem_singleton] at h
     rcases h with h | h
     · exact absurd (writeBeers_outcome_labels _ _ _ _ _ _ _ h) (by decide)
     · exact absurd h (by decide))

/-- C8: a quota rejection (either notice) leaves the `beers` table — and hence
`SumGivenOnDate`/`CountGivenOnDate` for every user and day — exactly as it was
before the attempt; only the dedup marker may have been added, and that table
is not consulted by the count. -/
theorem c8_rejection_frame (channelID emoji : String) (maxPerDay : Int) (ev : MsgEvent)
    (envelopeID markerTs today eventDay : String) (oracle : Nat → Bool) (db : DB)
    (hrej : "limit_reached" ∈ (handleMessage channelID emoji maxPerDay ev envelopeID markerTs today eventDay oracle db).outcomes
      ∨ "exceeded_allowed" ∈ (handleMessage channelID emoji maxPerDay ev envelopeID markerTs today eventDay oracle db).outcomes) :
    (handleMessage channelID emoji maxPerDay ev envelopeID markerTs today eventDay oracle db).db.beers = db.beers
    ∧ ∀ g d, countGivenOnDate (handleMessage channelID emoji maxPerDay ev envelopeID markerTs today eventDay oracle db).db g d
        = countGivenOnDate db g d := by
  have hbeers : (handleMessage channelID emoji maxPerDay ev envelopeID markerTs today eventDay oracle db).db.beers = db.beers := by
    simp only [handleMessage] at hrej ⊢
    split_ifs at hrej ⊢ <;> try rfl
    · rw [handleParsed_rejection_beers _ _ _ _ _ _ _ _ _ hrej]
      apply tryMark_beers
    · exact handleParsed_rejection_beers _ _ _ _ _ _ _ _ _ hrej
  exact ⟨hbeers, fun g d => countGivenOnDate_congr _ _ hbeers g d⟩

theorem c8_rejection_frame_witness :
    ("limit_reached" ∈ (handleMessage "C1" "🍺" 0 ⟨"C1", "U1", "", "<@U2> 🍺", "5.0"⟩
        "env1" "m" "2026-01-01" "2026-01-01" noFaults DB.empty).outcomes
      ∨ "exceeded_allowed" ∈ (handleMessage "C1" "🍺" 0 ⟨"C1", "U1", "", "<@U2> 🍺", "5.0"⟩
        "env1" "m" "2026-01-01" "2026-01-01" noFaults DB.empty).outcomes)
    ∧ ((handleMessage "C1" "🍺" 0 ⟨"C1", "U1", "", "<@U2> 🍺", "5.0"⟩
        "env1" "m" "2026-01-01" "2026-01-01" noFaults DB.empty).db.beers = DB.empty.beers
      ∧ ∀ g d, countGivenOnDate (handleMessage "C1" "🍺" 0 ⟨"C1", "U1", "", "<@U2> 🍺", "5.0"⟩
          "env1" "m" "2026-01-01" "2026-01-01" noFaults DB.empty).db g d
          = countGivenOnDate DB.empty g d) :=
  ⟨by decide, c8_rejection_frame "C1" "🍺" 0 ⟨"C1", "U1", "", "<@U2> 🍺", "5.0"⟩
      "env1" "m" "2026-01-01" "2026-01-01" noFaults DB.empty (by decide)⟩

theorem handleParsed_processedEvents (maxPerDay : Int) (user ts today eventDay : String)
    (oracle : Nat → Bool) (db1 : DB) (ms : List MentionSpan) (es : List Nat) :
    ((handleParsed maxPerDay user ts today eventDay oracle db1 ms es).db).processedEvents
      = db1.processedEvents := by
  simp only [handleParsed]
  split_ifs <;> first | rfl | apply writeBeers_processedEvents

theorem containsEvent_congr (a b : DB) (h : a.processedEvents = b.processedEvents)
    (k : String) : containsEvent a k = containsEvent b k := by
  unfold containsEvent
  rw [h]

/-- C6 counterexample: a storage error that hits `AddBeer` (the ledger write)
rather than the dedup claim leaves the event CLAIMED with no ledger row: the
dedup marker for the delivery id survives in `processed_events` while `beers`
stays empty, so a redelivery would be dropped as a duplicate instead of
retried — contradicting the claim that any storage error during processing
leaves the event unclaimed. -/
theorem c6_ledger_error_leaves_claimed_counterexample :
    (handleMessage "C1" "🍺" 10 ⟨"C1", "U1", "", "<@U2> 🍺", "5.0"⟩
        "env1" "m" "2026-01-01" "2026-01-01" (fun n => decide (n = 2)) DB.empty).outcomes
      = ["store_error", "stored"]
    ∧ lookupProcessed (handleMessage "C1" "🍺" 10 ⟨"C1", "U1", "", "<@U2> 🍺", "5.0"⟩
        "env1" "m" "2026-01-01" "2026-01-01" (fun n => decide (n = 2)) DB.empty).db "env1"
      = some "m"
    ∧ (handleMessage "C1" "🍺" 10 ⟨"C1", "U1", "", "<@U2> 🍺", "5.0"⟩
        "env1" "m" "2026-01-01" "2026-01-01" (fun n => decide (n = 2)) DB.empty).db.beers
      = [] := by
  decide

/-- C6 amended: a storage error while CLAIMING the dedup key (the
`TryMarkEventProcessed` call fails) leaves the database — marker set and
ledger both — exactly unchanged, so the event is unclaimed and retryable; but
a `store_error` during the ledger write happens after the claim, and then the
event key remains claimed in `processed_events`. -/
theorem c6_claim_error_unclaimed (channelID emoji : String) (maxPerDay : Int) (ev : MsgEvent)
    (envelopeID markerTs today eventDay : String) (oracle : Nat → Bool) (db : DB)
    (hch : ev.channel = channelID) (hu : ev.user ≠ "") (hsub : ev.subType = "") :
    (oracle 0 = true →
      handleMessage channelID emoji maxPerDay ev envelopeID markerTs today eventDay oracle db
        = ⟨db, ["event_mark_error"], []⟩)
    ∧ ("store_error" ∈ (handleMessage channelID emoji maxPerDay ev envelopeID markerTs today eventDay oracle db).outcomes →
        containsEvent (handleMessage channelID emoji maxPerDay ev envelopeID markerTs today eventDay oracle db).db
          (eventIdOf ev envelopeID) = true) := by
  constructor
  · intro h0
    unfold handleMessage
    rw [if_pos ⟨hch, hu⟩, if_neg (by simp [hsub]), if_pos ⟨eventIdOf_ne_empty ev envelopeID, h0⟩]
  · intro hse
    simp only [handleMessage] at hse ⊢
    split_ifs at hse ⊢
    · exact absurd hse (by simp)
    · exact absurd hse (by simp)
    · exact absurd hse (by simp)
    · rw [containsEvent_congr _ _ (handleParsed_processedEvents _ _ _ _ _ _ _ _ _)]
      apply containsEvent_after_tryMark
    · next hne =>
      exact absurd (eventIdOf_ne_empty ev envelopeID) (by simpa using hne)
    · next hg =>
      exact absurd ⟨hch, hu⟩ hg

theorem c6_claim_error_unclaimed_witness :
    ((⟨"C1", "U1", "", "<@U2> 🍺", "5.0"⟩ : MsgEvent).channel = "C1"
    ∧ (⟨"C1", "U1", "", "<@U2> 🍺", "5.0"⟩ : MsgEvent).user ≠ ""
    ∧ (⟨"C1", "U1", "", "<@U2> 🍺", "5.0"⟩ : MsgEvent).subType = "")
    ∧ (((fun _ => true) 0 = true →
        handleMessage "C1" "🍺" 10 ⟨"C1", "U1", "", "<@U2> 🍺", "5.0"⟩
          "env1" "m" "2026-01-01" "2026-01-01" (fun _ => true) DB.empty
          = ⟨DB.empty, ["event_mark_error"], []⟩)
      ∧ ("store_error" ∈ (handleMessage "C1" "🍺" 10 ⟨"C1", "U1", "", "<@U2> 🍺", "5.0"⟩
            "env1" "m" "2026-01-01" "2026-01-01" (fun _ => true) DB.empty).outcomes →
          containsEvent (handleMessage "C1" "🍺" 10 ⟨"C1", "U1", "", "<@U2> 🍺", "5.0"⟩
            "env1" "m" "2026-01-01" "2026-01-01" (fun _ => true) DB.empty).db
            (eventIdOf ⟨"C1", "U1", "", "<@U2> 🍺", "5.0"⟩ "env1") = true)) :=
  ⟨⟨rfl, by decide, rfl⟩,
    c6_claim_error_unclaimed "C1" "🍺" 10 ⟨"C1", "U1", "", "<@U2> 🍺", "5.0"⟩
      "env1" "m" "2026-01-01" "2026-01-01" (fun _ => true) DB.empty rfl (by decide) rfl⟩

theorem addBeer_mem (db : DB) (g r ts day : String) (c : Int) :
    ∀ row ∈ (addBeer db g r ts day c).beers,
      row ∈ db.beers ∨ (row.giver = g ∧ row.recipient = r) := by
  intro row hrow
  unfold addBeer at hrow
  split at hrow
  · obtain ⟨a, ha, heq⟩ := List.mem_map.mp hrow
    by_cases hp : (a.giver = g ∧ a.recipient = r ∧ a.ts = ts)
    · rw [if_pos hp] at heq
      right
      rw [← heq]
      exact ⟨hp.1, hp.2.1⟩
    · rw [if_neg hp] at heq
      rw [← heq]
      exact Or.inl ha
  · rcases List.mem_append.mp hrow with h | h
    · exact Or.inl h
    · right
      rw [List.mem_singleton.mp h]
      exact ⟨rfl, rfl⟩

theorem recordBeerEventOutcome_beers (db : DB) (eventId giver recipient : String)
    (quantity : Int) (status ts : String) :
    (recordBeerEventOutcome db eventId giver recipient quantity status ts).beers = db.beers := rfl

/-- C7 counterexample: `buildEventHandler` applies no self-gift filter: a
message from `U1` whose text mentions `U1` itself followed by the marker is
stored as a ledger row with giver = recipient = `U1`. -/
theorem c7_self_gift_counterexample :
    (handleMessage "C1" "🍺" 10 ⟨"C1", "U1", "", "<@U1> 🍺", "5.0"⟩
        "env1" "m" "2026-01-01" "2026-01-01" noFaults DB.empty).db.beers
      = [⟨"U1", "U1", "5.0", "2026-01-01", 1⟩]
    ∧ (handleMessage "C1" "🍺" 10 ⟨"C1", "U1", "", "<@U1> 🍺", "5.0"⟩
        "env1" "m" "2026-01-01" "2026-01-01" noFaults DB.empty).db.beers.any
        (fun row => decide (row.giver = row.recipient)) = true := by
  decide

/-- C7 amended: `MinimalSlackBot.processBeerGiving` (the processor `main`
wires up) rejects self-gifts before any write — every `beers` row after a call
is either a pre-existing row or has giver ≠ recipient; `buildEventHandler`
performs no such check and can store giver = recipient (see the
counterexample). -/
theorem c7_minimal_bot_no_self_gift (maxGift : Nat) (readOnly : Bool) (ev : PBGEvent)
    (envelopeID eventDay : String) (oracle : Nat → Bool) (db : DB) :
    ∀ row ∈ (processBeerGiving maxGift readOnly ev envelopeID eventDay oracle db).db.beers,
      row ∈ db.beers ∨ row.giver ≠ row.recipient := by
  intro row hrow
  simp only [processBeerGiving] at hrow
  split_ifs at hrow <;>
    rw [recordBeerEventOutcome_beers] at hrow <;>
    first
      | exact Or.inl hrow
      | (rw [tryMark_beers] at hrow; exact Or.inl hrow)
      | (rcases addBeer_mem _ _ _ _ _ _ row hrow with h | h
         · rw [tryMark_beers] at h
           exact Or.inl h
         · right
           rw [h.1, h.2]
           exact fun hc => ‹¬(extractRecipient ev.text.toList = ev.user)› hc.symm)

theorem c7_minimal_bot_no_self_gift_witness :
    (⟨"U1", "U2", "7.0", "2026-01-02", 1⟩ : BeerRow)
      ∈ (processBeerGiving 10 false ⟨"C1", "U1", "<@U2> 🍺", "7.0"⟩
          "env9" "2026-01-02" noFaults DB.empty).db.beers
    ∧ ((⟨"U1", "U2", "7.0", "2026-01-02", 1⟩ : BeerRow) ∈ DB.empty.beers
      ∨ (⟨"U1", "U2", "7.0", "2026-01-02", 1⟩ : BeerRow).giver
          ≠ (⟨"U1", "U2", "7.0", "2026-01-02", 1⟩ : BeerRow).recipient) :=
  ⟨by decide,
    c7_minimal_bot_no_self_gift 10 false ⟨"C1", "U1", "<@U2> 🍺", "7.0"⟩
      "env9" "2026-01-02" noFaults DB.empty ⟨"U1", "U2", "7.0", "2026-01-02", 1⟩ (by decide)⟩

theorem codeSel_nil (e : Nat) : codeSel [] e = "" := rfl

theorem recipientBeersList_ms_nil (es : List Nat) : recipientBeersList [] es = [] := by
  unfold recipientBeersList
  suffices h : ∀ acc : List (String × Nat),
      es.foldl (fun acc e =>
        let r := codeSel [] e
        if r ≠ "" then bumpAssoc acc r else acc) acc = acc from h []
  induction es with
  | nil => intro acc; rfl
  | cons e rest ih =>
    intro acc
    rw [List.foldl_cons]
    simpa using ih acc

theorem recipientBeersList_es_nil (ms : List MentionSpan) : recipientBeersList ms [] = [] := rfl

theorem totalUnits_pos_ne_nil (ms : List MentionSpan) (es : List Nat)
    (h : 0 < totalUnits ms es) : ¬(ms = [] ∨ es = []) := by
  rintro (hm | he)
  · rw [hm] at h
    rw [totalUnits, recipientBeersList_ms_nil] at h
    simp at h
  · rw [he] at h
    rw [totalUnits, recipientBeersList_es_nil] at h
    simp at h

theorem bumpAssoc_keys (l : List (String × Nat)) (k : String) :
    (bumpAssoc l k).map Prod.fst =
      if l.any (fun p => p.1 = k) then l.map Prod.fst else l.map Prod.fst ++ [k] := by
  unfold bumpAssoc
  split_ifs with hc
  · rw [List.map_map]
    apply List.map_congr_left
    intro p _
    by_cases hp : p.1 = k
    · simp [hp]
    · simp [hp]
  · simp

theorem bumpAssoc_keys_nodup (l : List (String × Nat)) (k : String)
    (h : (l.map Prod.fst).Nodup) : ((bumpAssoc l k).map Prod.fst).Nodup := by
  rw [bumpAssoc_keys]
  split_ifs with hc
  · exact h
  · have hk : k ∉ l.map Prod.fst := by
      intro hmem
      obtain ⟨p, hp, hpk⟩ := List.mem_map.mp hmem
      exact hc (List.any_eq_true.mpr ⟨p, hp, by simp [hpk]⟩)
    simp [List.nodup_append, h, hk]

theorem recipientBeersList_keys_nodup (ms : List MentionSpan) (es : List Nat) :
    ((recipientBeersList ms es).map Prod.fst).Nodup := by
  unfold recipientBeersList
  suffices h : ∀ acc : List (String × Nat), (acc.map Prod.fst).Nodup →
      ((es.foldl (fun acc e =>
        let r := codeSel ms e
        if r ≠ "" then bumpAssoc acc r else acc) acc).map Prod.fst).Nodup from
    h [] (by simp)
  induction es with
  | nil => intro acc hacc; exact hacc
  | cons e rest ih =>
    intro acc hacc
    rw [List.foldl_cons]
    apply ih
    by_cases hr : codeSel ms e ≠ ""
    · simpa [hr] using bumpAssoc_keys_nodup acc (codeSel ms e) hacc
    · simpa [hr] using hacc

theorem find?_map_pres {α : Type} (f : α → α) (p : α → Bool) (hf : ∀ a, p (f a) = p a)
    (l : List α) : (l.map f).find? p = (l.find? p).map f := by
  induction l with
  | nil => rfl
  | cons a t ih =>
    by_cases hp : p a = true
    · rw [List.map_cons, List.find?_cons_of_pos _ (by rw [hf]; exact hp),
        List.find?_cons_of_pos _ hp]
      rfl
    · rw [List.map_cons, List.find?_cons_of_neg _ (by rw [hf]; simpa using hp),
        List.find?_cons_of_neg _ (by simpa using hp)]
      exact ih

theorem find?_map_id_on {α : Type} (f : α → α) (p : α → Bool) (hf : ∀ a, p (f a) = p a)
    (hid : ∀ a, p a = true → f a = a) (l : List α) : (l.map f).find? p = l.find? p := by
  rw [find?_map_pres f p hf]
  cases hfind : l.find? p with
  | none => rfl
  | some a =>
    simp only [Option.map]
    rw [hid a (List.find?_some hfind)]

theorem find?_append_none {α : Type} (p : α → Bool) (l₁ l₂ : List α)
    (h : l₁.find? p = none) : (l₁ ++ l₂).find? p = l₂.find? p := by
  induction l₁ with
  | nil => rfl
  | cons a t ih =>
    by_cases hp : p a = true
    · rw [List.find?_cons_of_pos _ hp] at h
      exact absurd h (by simp)
    · rw [List.find?_cons_of_neg _ (by simpa using hp)] at h
      rw [List.cons_append, List.find?_cons_of_neg _ (by simpa using hp)]
      exact ih h

theorem addBeer_lookup_self (db : DB) (g r ts day : String) (c : Int) :
    lookupBeer (addBeer db g r ts day c) g r ts = some c := by
  unfold addBeer lookupBeer
  split_ifs with hc
  · simp only
    rw [find?_map_pres _ _ (by
      intro a
      by_cases hp : (a.giver = g ∧ a.recipient = r ∧ a.ts = ts)
      · rw [if_pos hp]
      · rw [if_neg hp])]
    cases hfind : db.beers.find? (fun row => decide (row.giver = g ∧ row.recipient = r ∧ row.ts = ts)) with
    | none =>
      rw [List.find?_eq_none] at hfind
      obtain ⟨row, hrow, hprow⟩ := List.any_eq_true.mp hc
      exact absurd hprow (by simpa using hfind row hrow)
    | some row =>
      have hp0 := List.find?_some hfind
      have hprow : row.giver = g ∧ row.recipient = r ∧ row.ts = ts := of_decide_eq_true hp0
      simp only [Option.map]
      rw [if_pos hprow]
  · simp only
    rw [find?_append_none _ _ _ (List.find?_eq_none.mpr (by
      intro x hx hp
      exact hc (List.any_eq_true.mpr ⟨x, hx, hp⟩)))]
    rw [List.find?_cons_of_pos _ (by simp)]
    rfl

theorem addBeer_lookup_other (db : DB) (g r ts day : String) (c : Int)
    (g' r' ts' : String) (hne : r ≠ r') :
    lookupBeer (addBeer db g r ts day c) g' r' ts' = lookupBeer db g' r' ts' := by
  unfold addBeer lookupBeer
  split_ifs with hc
  · simp only
    rw [find?_map_id_on _ _ (by
        intro a
        by_cases hp : (a.giver = g ∧ a.recipient = r ∧ a.ts = ts)
        · rw [if_pos hp]
        · rw [if_neg hp])
      (by
        intro a hpa
        have ha := of_decide_eq_true hpa
        rw [if_neg]
        intro hp
        exact hne (hp.2.1.symm.trans ha.2.1))]
  · simp only
    cases hfind : db.beers.find? (fun row => decide (row.giver = g' ∧ row.recipient = r' ∧ row.ts = ts')) with
    | none =>
      rw [find?_append_none _ _ _ hfind, List.find?_cons_of_neg _ (by
        intro hp
        have hp2 : ({ giver := g, recipient := r, ts := ts, day := day, count := c } : BeerRow).giver = g'
            ∧ ({ giver := g, recipient := r, ts := ts, day := day, count := c } : BeerRow).recipient = r'
            ∧ ({ giver := g, recipient := r, ts := ts, day := day, count := c } : BeerRow).ts = ts' :=
          of_decide_eq_true hp
        exact hne hp2.2.1), List.find?_nil]
    | some row =>
      rw [find?_append_left _ _ _ _ hfind]

theorem foldl_addBeer_lookup_pres (user ts day : String) (r : String)
    (l : List (String × Nat)) :
    ∀ d : DB, r ∉ l.map Prod.fst →
      lookupBeer (l.foldl (fun d p => addBeer d user p.1 ts day (p.2 : Int)) d) user r ts
        = lookupBeer d user r ts := by
  induction l with
  | nil => intro d _; rfl
  | cons q rest ih =>
    intro d hr
    rw [List.foldl_cons]
    rw [ih _ (fun hm => hr (by simp [hm]))]
    exact addBeer_lookup_other d user q.1 ts day (q.2 : Int) user r ts
      (fun he => hr (by simp [he]))

theorem foldl_addBeer_lookup (user ts day : String) (rb : List (String × Nat)) :
    ∀ (db : DB) (r : String) (c : Nat), ((rb.map Prod.fst).Nodup) → (r, c) ∈ rb →
      lookupBeer (rb.foldl (fun d p => addBeer d user p.1 ts day (p.2 : Int)) db) user r ts
        = some (c : Int) := by
  induction rb with
  | nil => intro db r c _ hm; simp at hm
  | cons p rest ih =>
    intro db r c hnd hm
    rw [List.foldl_cons]
    have hnd2 : p.1 ∉ rest.map Prod.fst ∧ (rest.map Prod.fst).Nodup := by
      rw [List.map_cons] at hnd
      exact List.nodup_cons.mp hnd
    rcases List.mem_cons.mp hm with heq | hmem
    · have hr : r ∉ rest.map Prod.fst := by
        have hr1 : r = p.1 := by rw [← heq]
        rw [hr1]
        exact hnd2.1
      rw [foldl_addBeer_lookup_pres user ts day r rest _ hr, ← heq]
      exact addBeer_lookup_self db user r ts day (c : Int)
    · exact ih _ r c hnd2.2 hmem

theorem writeBeers_noFaults_fold (user ts day : String) (l : List (String × Nat)) :
    ∀ (n : Nat) (acc : DB × List String),
      ((List.enumFrom n l).foldl (fun acc me =>
        if noFaults (2 + me.1) then (acc.1, acc.2 ++ ["store_error"])
        else (addBeer acc.1 user me.2.1 ts day (me.2.2 : Int), acc.2)) acc)
      = (l.foldl (fun d p => addBeer d user p.1 ts day (p.2 : Int)) acc.1, acc.2) := by
  induction l with
  | nil => intro n acc; rfl
  | cons p rest ih =>
    intro n acc
    rw [List.enumFrom_cons, List.foldl_cons, List.foldl_cons]
    rw [if_neg (by simp [noFaults])]
    exact ih (n + 1) _

theorem writeBeers_noFaults (db : DB) (user ts day : String) (rb : List (String × Nat)) :
    writeBeers db user ts day rb noFaults
      = (rb.foldl (fun d p => addBeer d user p.1 ts day (p.2 : Int)) db, []) := by
  unfold writeBeers
  exact writeBeers_noFaults_fold user ts day rb 0 (db, [])

theorem handleParsed_quota (maxPerDay : Int) (user ts today eventDay : String) (db1 : DB)
    (ms : List MentionSpan) (es : List Nat)
    (hT : 0 < totalUnits ms es) :
    handleParsed maxPerDay user ts today eventDay noFaults db1 ms es =
      (if countGivenOnDate db1 user today ≥ maxPerDay then
        ⟨db1, ["limit_reached"], [limitReachedMsg user maxPerDay]⟩
      else if (totalUnits ms es : Int) > maxPerDay - countGivenOnDate db1 user today then
        ⟨db1, ["exceeded_allowed"],
          [exceededMsg user (totalUnits ms es : Int)
            (maxPerDay - countGivenOnDate db1 user today)]⟩
      else
        ⟨(recipientBeersList ms es).foldl
            (fun d p => addBeer d user p.1 ts eventDay (p.2 : Int)) db1,
          ["stored"], []⟩) := by
  unfold handleParsed
  rw [if_neg (totalUnits_pos_ne_nil ms es hT),
    if_neg (by
      intro hz
      rw [Int.natCast_eq_zero] at hz
      omega),
    if_neg (by simp [noFaults]),
    writeBeers_noFaults]
  rfl

/-- C3: with the guards passed, a fresh dedup key and a positive requested
total `T`: if `GivenToday ≥ max` the whole message is rejected with the
limit-reached notice and the ledger is untouched (only the dedup marker was
added); else if `GivenToday + T > max` the whole message is rejected with the
units-remaining notice, again with no ledger write (no partial clipping);
otherwise every per-recipient count of the message is recorded. -/
theorem c3_quota_all_or_nothing (channelID emoji : String) (maxPerDay : Int) (ev : MsgEvent)
    (envelopeID markerTs today eventDay : String) (db : DB)
    (hch : ev.channel = channelID) (hu : ev.user ≠ "") (hsub : ev.subType = "")
    (hfresh : containsEvent db (eventIdOf ev envelopeID) = false)
    (hT : 0 < totalUnits (findMentions ev.text.toList) (findOccs emoji.toList ev.text.toList)) :
    (countGivenOnDate db ev.user today ≥ maxPerDay →
      handleMessage channelID emoji maxPerDay ev envelopeID markerTs today eventDay noFaults db
        = ⟨(tryMarkEventProcessed db (eventIdOf ev envelopeID) markerTs).2,
            ["limit_reached"], [limitReachedMsg ev.user maxPerDay]⟩
      ∧ (handleMessage channelID emoji maxPerDay ev envelopeID markerTs today eventDay noFaults db).db.beers
          = db.beers)
    ∧ (countGivenOnDate db ev.user today < maxPerDay →
        maxPerDay < countGivenOnDate db ev.user today
          + (totalUnits (findMentions ev.text.toList) (findOccs emoji.toList ev.text.toList) : Int) →
        handleMessage channelID emoji maxPerDay ev envelopeID markerTs today eventDay noFaults db
          = ⟨(tryMarkEventProcessed db (eventIdOf ev envelopeID) markerTs).2,
              ["exceeded_allowed"],
              [exceededMsg ev.user
                (totalUnits (findMentions ev.text.toList) (findOccs emoji.toList ev.text.toList) : Int)
                (maxPerDay - countGivenOnDate db ev.user today)]⟩
        ∧ (handleMessage channelID emoji maxPerDay ev envelopeID markerTs today eventDay noFaults db).db.beers
            = db.beers)
    ∧ (countGivenOnDate db ev.user today
          + (totalUnits (findMentions ev.text.toList) (findOccs emoji.toList ev.text.toList) : Int)
          ≤ maxPerDay →
        (handleMessage channelID emoji maxPerDay ev envelopeID markerTs today eventDay noFaults db).outcomes
          = ["stored"]
        ∧ ∀ r c, (r, c) ∈ recipientBeersList (findMentions ev.text.toList) (findOccs emoji.toList ev.text.toList) →
            lookupBeer (handleMessage channelID emoji maxPerDay ev envelopeID markerTs today eventDay noFaults db).db
              ev.user r ev.timeStamp = some (c : Int)) := by
  have hclaim : (tryMarkEventProcessed db (eventIdOf ev envelopeID) markerTs).1 = true := by
    unfold tryMarkEventProcessed
    rw [if_neg (by simp [hfresh])]
  have hmsg : handleMessage channelID emoji maxPerDay ev envelopeID markerTs today eventDay noFaults db
      = handleParsed maxPerDay ev.user ev.timeStamp today eventDay noFaults
          (tryMarkEventProcessed db (eventIdOf ev envelopeID) markerTs).2
          (findMentions ev.text.toList) (findOccs emoji.toList ev.text.toList) := by
    simp only [handleMessage]
    rw [if_pos ⟨hch, hu⟩, if_neg (by simp [hsub]), if_neg (by simp [noFaults]),
      if_neg (by simp [hclaim]), if_pos (eventIdOf_ne_empty ev envelopeID)]
  have hgiven : countGivenOnDate (tryMarkEventProcessed db (eventIdOf ev envelopeID) markerTs).2 ev.user today
      = countGivenOnDate db ev.user today :=
    countGivenOnDate_congr _ _ (tryMark_beers db _ markerTs) ev.user today
  rw [hmsg, handleParsed_quota _ _ _ _ _ _ _ _ hT, hgiven]
  refine ⟨?_, ?_, ?_⟩
  · intro h1
    rw [if_pos h1]
    exact ⟨rfl, tryMark_beers db _ markerTs⟩
  · intro h1 h2
    rw [if_neg (by omega), if_pos (by omega)]
    exact ⟨rfl, tryMark_beers db _ markerTs⟩
  · intro h1
    have hTge : (1 : Int) ≤ (totalUnits (findMentions ev.text.toList) (findOccs emoji.toList ev.text.toList) : Int) := by
      exact_mod_cast hT
    rw [if_neg (by omega), if_neg (by omega)]
    refine ⟨rfl, ?_⟩
    intro r c hm
    exact foldl_addBeer_lookup ev.user ev.timeStamp eventDay _ _ r c
      (recipientBeersList_keys_nodup _ _) hm

theorem c3_quota_all_or_nothing_witness :
    ((⟨"C1", "U1", "", "<@U2> 🍺", "5.0"⟩ : MsgEvent).channel = "C1"
    ∧ (⟨"C1", "U1", "", "<@U2> 🍺", "5.0"⟩ : MsgEvent).user ≠ ""
    ∧ (⟨"C1", "U1", "", "<@U2> 🍺", "5.0"⟩ : MsgEvent).subType = ""
    ∧ containsEvent DB.empty (eventIdOf ⟨"C1", "U1", "", "<@U2> 🍺", "5.0"⟩ "env1") = false
    ∧ 0 < totalUnits
        (findMentions (⟨"C1", "U1", "", "<@U2> 🍺", "5.0"⟩ : MsgEvent).text.toList)
        (findOccs ("🍺" : String).toList (⟨"C1", "U1", "", "<@U2> 🍺", "5.0"⟩ : MsgEvent).text.toList))
    ∧ ((countGivenOnDate DB.empty "U1" "2026-01-01" ≥ 10 →
        handleMessage "C1" "🍺" 10 ⟨"C1", "U1", "", "<@U2> 🍺", "5.0"⟩
            "env1" "m" "2026-01-01" "2026-01-01" noFaults DB.empty
          = ⟨(tryMarkEventProcessed DB.empty
                (eventIdOf ⟨"C1", "U1", "", "<@U2> 🍺", "5.0"⟩ "env1") "m").2,
              ["limit_reached"], [limitReachedMsg "U1" 10]⟩
        ∧ (handleMessage "C1" "🍺" 10 ⟨"C1", "U1", "", "<@U2> 🍺", "5.0"⟩
            "env1" "m" "2026-01-01" "2026-01-01" noFaults DB.empty).db.beers = DB.empty.beers)
      ∧ (countGivenOnDate DB.empty "U1" "2026-01-01" < 10 →
          (10 : Int) < countGivenOnDate DB.empty "U1" "2026-01-01"
            + (totalUnits (findMentions (⟨"C1", "U1", "", "<@U2> 🍺", "5.0"⟩ : MsgEvent).text.toList)
                (findOccs ("🍺" : String).toList (⟨"C1", "U1", "", "<@U2> 🍺", "5.0"⟩ : MsgEvent).text.toList) : Int) →
          handleMessage "C1" "🍺" 10 ⟨"C1", "U1", "", "<@U2> 🍺", "5.0"⟩
              "env1" "m" "2026-01-01" "2026-01-01" noFaults DB.empty
            = ⟨(tryMarkEventProcessed DB.empty
                  (eventIdOf ⟨"C1", "U1", "", "<@U2> 🍺", "5.0"⟩ "env1") "m").2,
                ["exceeded_allowed"],
                [exceededMsg "U1"
                  (totalUnits (findMentions (⟨"C1", "U1", "", "<@U2> 🍺", "5.0"⟩ : MsgEvent).text.toList)
                    (findOccs ("🍺" : String).toList (⟨"C1", "U1", "", "<@U2> 🍺", "5.0"⟩ : MsgEvent).text.toList) : Int)
                  (10 - countGivenOnDate DB.empty "U1" "2026-01-01")]⟩
          ∧ (handleMessage "C1" "🍺" 10 ⟨"C1", "U1", "", "<@U2> 🍺", "5.0"⟩
              "env1" "m" "2026-01-01" "2026-01-01" noFaults DB.empty).db.beers = DB.empty.beers)
      ∧ (countGivenOnDate DB.empty "U1" "2026-01-01"
            + (totalUnits (findMentions (⟨"C1", "U1", "", "<@U2> 🍺", "5.0"⟩ : MsgEvent).text.toList)
                (findOccs ("🍺" : String).toList (⟨"C1", "U1", "", "<@U2> 🍺", "5.0"⟩ : MsgEvent).text.toList) : Int)
            ≤ 10 →
          (handleMessage "C1" "🍺" 10 ⟨"C1", "U1", "", "<@U2> 🍺", "5.0"⟩
              "env1" "m" "2026-01-01" "2026-01-01" noFaults DB.empty).outcomes = ["stored"]
          ∧ ∀ r c, (r, c) ∈ recipientBeersList
                (findMentions (⟨"C1", "U1", "", "<@U2> 🍺", "5.0"⟩ : MsgEvent).text.toList)
                (findOccs ("🍺" : String).toList (⟨"C1", "U1", "", "<@U2> 🍺", "5.0"⟩ : MsgEvent).text.toList) →
              lookupBeer (handleMessage "C1" "🍺" 10 ⟨"C1", "U1", "", "<@U2> 🍺", "5.0"⟩
                  "env1" "m" "2026-01-01" "2026-01-01" noFaults DB.empty).db
                "U1" r "5.0" = some (c : Int))) :=
  ⟨⟨rfl, by decide, rfl, by decide, by decide⟩,
    c3_quota_all_or_nothing "C1" "🍺" 10 ⟨"C1", "U1", "", "<@U2> 🍺", "5.0"⟩
      "env1" "m" "2026-01-01" "2026-01-01" DB.empty rfl (by decide) rfl (by decide) (by decide)⟩

/-! ## C2: the code's marker→mention association vs the spec's wording -/

theorem mentionAt_pos (cs : List Char) (len : Nat) (id : String)
    (h : mentionAt cs = some (len, id)) : 0 < len ∧ id ≠ "" := by
  unfold mentionAt at h
  split at h
  · split at h
    · next hrun =>
      cases h
      refine ⟨by omega, ?_⟩
      intro hc
      exact hrun.1 (by
        have := congrArg String.data hc
        simpa using this)
    · exact absurd h (by simp)
  · exact absurd h (by simp)

theorem findMentionsFuel_ok (fuel : Nat) :
    ∀ (cs : List Char) (pos : Nat),
      List.Pairwise (fun a b => a.stop ≤ b.start) (findMentionsFuel fuel cs pos)
      ∧ ∀ m ∈ findMentionsFuel fuel cs pos, m.start < m.stop ∧ m.id ≠ "" ∧ pos ≤ m.start := by
  induction fuel with
  | zero => intro cs pos; simp [findMentionsFuel]
  | succ n ih =>
    intro cs pos
    match cs with
    | [] => simp [findMentionsFuel]
    | c :: rest =>
      cases hma : mentionAt (c :: rest) with
      | none =>
        simp only [findMentionsFuel, hma]
        obtain ⟨hpw, hmem⟩ := ih rest (pos + 1)
        exact ⟨hpw, fun m hm => ⟨(hmem m hm).1, (hmem m hm).2.1, by
          have := (hmem m hm).2.2
          omega⟩⟩
      | some lenid =>
        obtain ⟨len, id⟩ := lenid
        have hpos := mentionAt_pos _ _ _ hma
        simp only [findMentionsFuel, hma]
        obtain ⟨hpw, hmem⟩ := ih ((c :: rest).drop len) (pos + len)
        constructor
        · exact List.Pairwise.cons (fun b hb => by
            have := (hmem b hb).2.2
            simpa using this) hpw
        · intro m hm
          rcases List.mem_cons.mp hm with heq | hm'
          · rw [heq]
            exact ⟨by simp; omega, hpos.2, by simp⟩
          · obtain ⟨h1, h2, h3⟩ := hmem m hm'
            exact ⟨h1, h2, by omega⟩

theorem findMentions_pairwise (text : List Char) :
    List.Pairwise (fun a b => a.stop ≤ b.start) (findMentions text) :=
  (findMentionsFuel_ok text.length text 0).1

theorem findMentions_spans (text : List Char) :
    ∀ m ∈ findMentions text, m.start < m.stop ∧ m.id ≠ "" ∧ 0 ≤ m.start :=
  (findMentionsFuel_ok text.length text 0).2

theorem selLoop_no_qual (e : Nat) (ms : List MentionSpan) :
    ∀ (l : Int) (acc : String), (∀ m ∈ ms, ¬(e > m.stop)) →
      selLoop e ms l acc = acc := by
  induction ms with
  | nil => intro l acc _; rfl
  | cons m rest ih =>
    intro l acc hq
    unfold selLoop
    rw [if_neg (fun hand => hq m (List.mem_cons_self m rest) hand.1)]
    exact ih l acc (fun b hb => hq b (List.mem_cons_of_mem m hb))

theorem selLoop_characterization (e : Nat) (ms : List MentionSpan) :
    List.Pairwise (fun a b => a.stop ≤ b.start) ms →
    (∀ m ∈ ms, m.start < m.stop) →
    ∀ (l : Int) (acc : String), (∀ m ∈ ms, l < (m.start : Int)) →
      selLoop e ms l acc
        = (((ms.takeWhile (fun m => decide (m.stop < e))).getLast?).map
            (fun m => m.id)).getD acc := by
  induction ms with
  | nil => intro _ _ l acc _; rfl
  | cons m rest ih =>
    intro hpw hlt l acc hl
    obtain ⟨hrel, hpw'⟩ := List.pairwise_cons.mp hpw
    by_cases hq : m.stop < e
    · unfold selLoop
      rw [if_pos ⟨hq, hl m (List.mem_cons_self m rest)⟩]
      rw [ih hpw' (fun b hb => hlt b (List.mem_cons_of_mem m hb)) (m.start : Int) m.id
        (fun b hb => by
          have h1 := hlt m (List.mem_cons_self m rest)
          have h2 := hrel b hb
          have h3 : m.start < b.start := by omega
          exact_mod_cast h3)]
      rw [List.takeWhile_cons_of_pos (by simpa using hq)]
      cases htw : rest.takeWhile (fun m => decide (m.stop < e)) with
      | nil => rfl
      | cons x xs =>
        rw [List.getLast?_cons_cons]
        cases hy : (x :: xs).getLast? with
        | none => exact absurd (List.getLast?_eq_none_iff.mp hy) (by simp)
        | some y => rfl
    · unfold selLoop
      rw [if_neg (fun hand => hq hand.1)]
      rw [selLoop_no_qual e rest l acc (fun b hb hbq => by
        have h1 := hrel b hb
        have h2 := hlt b (List.mem_cons_of_mem m hb)
        omega)]
      rw [List.takeWhile_cons_of_neg (by simpa using hq)]
      rfl

theorem bestFold_no_qual (q : MentionSpan → Bool) (ms : List MentionSpan) :
    ∀ b : Option MentionSpan, (∀ m ∈ ms, q m = false) →
      ms.foldl (fun best m =>
        if q m then
          match best with
          | none => some m
          | some x => if x.stop < m.stop then some m else some x
        else best) b = b := by
  induction ms with
  | nil => intro b _; rfl
  | cons m rest ih =>
    intro b hq
    rw [List.foldl_cons, if_neg (by simp [hq m (List.mem_cons_self m rest)])]
    exact ih b (fun x hx => hq x (List.mem_cons_of_mem m hx))

theorem bestFold_characterization (q : MentionSpan → Bool)
    (hmono : ∀ a b, a.stop ≤ b.start → b.start < b.stop → q a = false → q b = false)
    (ms : List MentionSpan) :
    List.Pairwise (fun a b => a.stop ≤ b.start) ms →
    (∀ m ∈ ms, m.start < m.stop) →
    ∀ b : Option MentionSpan, (∀ m ∈ ms, ∀ x, b = some x → x.stop < m.stop) →
      ms.foldl (fun best m =>
        if q m then
          match best with
          | none => some m
          | some x => if x.stop < m.stop then some m else some x
        else best) b
        = match (ms.takeWhile q).getLast? with
          | some m => some m
          | none => b := by
  induction ms with
  | nil => intro _ _ b _; rfl
  | cons m rest ih =>
    intro hpw hlt b hb
    obtain ⟨hrel, hpw'⟩ := List.pairwise_cons.mp hpw
    by_cases hq : q m = true
    · rw [List.foldl_cons, if_pos hq]
      have hstep : ∀ bo : Option MentionSpan, (∀ x, bo = some x → x.stop < m.stop) →
          (match bo with
            | none => some m
            | some x => if x.stop < m.stop then some m else some x) = some m := by
        intro bo hbo
        cases bo with
        | none => rfl
        | some x => exact if_pos (hbo x rfl)
      rw [hstep b (fun x hx => hb m (List.mem_cons_self m rest) x hx)]
      rw [ih hpw' (fun x hx => hlt x (List.mem_cons_of_mem m hx)) (some m)
        (fun x hx y hy => by
          cases hy
          have h1 := hrel x hx
          have h2 := hlt x (List.mem_cons_of_mem m hx)
          omega)]
      rw [List.takeWhile_cons_of_pos hq]
      cases htw : rest.takeWhile q with
      | nil => rfl
      | cons x xs =>
        rw [List.getLast?_cons_cons]
        cases hy : (x :: xs).getLast? with
        | none => exact absurd (List.getLast?_eq_none_iff.mp hy) (by simp)
        | some y => rfl
    · have hqf : q m = false := by simpa using hq
      rw [List.foldl_cons, if_neg (by simp [hqf])]
      rw [bestFold_no_qual q rest b (fun x hx =>
        hmono m x (hrel x hx) (hlt x (List.mem_cons_of_mem m hx)) hqf)]
      rw [List.takeWhile_cons_of_neg (by simp [hqf])]
      rfl

theorem specSelStrict_characterization (e : Nat) (ms : List MentionSpan)
    (hpw : List.Pairwise (fun a b => a.stop ≤ b.start) ms)
    (hlt : ∀ m ∈ ms, m.start < m.stop) :
    specSelStrict ms e
      = match (ms.takeWhile (fun m => decide (m.stop < e))).getLast? with
        | some m => some m
        | none => none := by
  unfold specSelStrict bestByStop
  exact bestFold_characterization (fun m => decide (m.stop < e))
    (fun a b hab hb hqa => by
      simp only [decide_eq_false_iff_not] at hqa ⊢
      omega) ms hpw hlt none (by simp)

theorem codeSel_eq_specSelStrict (ms : List MentionSpan) (e : Nat)
    (hpw : List.Pairwise (fun a b => a.stop ≤ b.start) ms)
    (hlt : ∀ m ∈ ms, m.start < m.stop) :
    codeSel ms e = ((specSelStrict ms e).map (fun m => m.id)).getD "" := by
  unfold codeSel
  rw [selLoop_characterization e ms hpw hlt (-1) ""
    (fun m _ => by
      have : (0 : Int) ≤ (m.start : Int) := Int.natCast_nonneg m.start
      omega)]
  rw [specSelStrict_characterization e ms hpw hlt]
  cases (ms.takeWhile (fun m => decide (m.stop < e))).getLast? with
  | none => rfl
  | some y => rfl

theorem assocCount_bump (l : List (String × Nat)) (k r : String) :
    assocCount (bumpAssoc l k) r = assocCount l r + (if r = k then 1 else 0) := by
  have hpres : ∀ a : String × Nat,
      (fun p : String × Nat => decide (p.1 = r)) ((fun p : String × Nat =>
        if p.1 = k then (p.1, p.2 + 1) else p) a)
      = (fun p : String × Nat => decide (p.1 = r)) a := by
    intro a
    by_cases hp : a.1 = k
    · simp [hp]
    · simp [hp]
  by_cases hc : (l.any fun p => decide (p.1 = k)) = true
  · unfold bumpAssoc assocCount
    rw [if_pos hc]
    rw [find?_map_pres (fun p : String × Nat => if p.1 = k then (p.1, p.2 + 1) else p)
      (fun p : String × Nat => decide (p.1 = r)) hpres l]
    by_cases hrk : r = k
    · rw [if_pos hrk]
      cases hf : l.find? (fun p => decide (p.1 = r)) with
      | none =>
        obtain ⟨q, hq, hqk⟩ := List.any_eq_true.mp hc
        rw [List.find?_eq_none] at hf
        exact absurd (by simpa [hrk] using of_decide_eq_true hqk : decide (q.1 = r) = true)
          (by simpa using hf q hq)
      | some q =>
        have hq0 := List.find?_some hf
        have hq1 : q.1 = r := of_decide_eq_true hq0
        simp only [Option.map]
        rw [if_pos (hq1.trans hrk)]
        simp [Option.getD]
    · rw [if_neg hrk]
      cases hf : l.find? (fun p => decide (p.1 = r)) with
      | none => simp
      | some q =>
        have hq0 := List.find?_some hf
        have hq1 : q.1 = r := of_decide_eq_true hq0
        simp only [Option.map]
        rw [if_neg (fun hp => hrk (hq1.symm.trans hp))]
        simp [Option.getD]
  · unfold bumpAssoc assocCount
    rw [if_neg hc]
    by_cases hrk : r = k
    · rw [if_pos hrk]
      have hf : l.find? (fun p => decide (p.1 = r)) = none := by
        rw [List.find?_eq_none]
        intro q hq hqr
        exact hc (List.any_eq_true.mpr ⟨q, hq, by
          have : q.1 = r := of_decide_eq_true hqr
          simp [this, hrk]⟩)
      rw [find?_append_none _ _ _ hf, hf]
      rw [List.find?_cons_of_pos _ (by simp [hrk])]
      simp
    · rw [if_neg hrk]
      cases hf : l.find? (fun p => decide (p.1 = r)) with
      | none =>
        rw [find?_append_none _ _ _ hf]
        rw [List.find?_cons_of_neg _ (by simp; exact fun hp => hrk hp.symm), List.find?_nil]
        simp
      | some q =>
        rw [find?_append_left _ _ _ _ hf]
        simp

theorem assocCount_nil (r : String) : assocCount [] r = 0 := rfl

theorem recipientBeers_count (ms : List MentionSpan) (es : List Nat) (r : String)
    (hr : r ≠ "") :
    assocCount (recipientBeersList ms es) r
      = es.countP (fun e => decide (codeSel ms e = r)) := by
  unfold recipientBeersList
  suffices h : ∀ acc, assocCount (es.foldl (fun acc e =>
      let rr := codeSel ms e
      if rr ≠ "" then bumpAssoc acc rr else acc) acc) r
      = assocCount acc r + es.countP (fun e => decide (codeSel ms e = r)) by
    simpa [assocCount_nil] using h []
  induction es with
  | nil => intro acc; simp
  | cons e rest ih =>
    intro acc
    rw [List.foldl_cons, List.countP_cons]
    by_cases hsel : codeSel ms e ≠ ""
    · rw [ih]
      simp only [if_pos hsel]
      rw [assocCount_bump]
      by_cases heq : codeSel ms e = r
      · simp [heq]
        omega
      · rw [if_neg (fun hp => heq hp.symm)]
        simp [heq]
    · rw [ih]
      simp only [if_neg hsel]
      have : codeSel ms e ≠ r := by
        intro hp
        push_neg at hsel
        rw [hsel] at hp
        exact hr hp.symm
      simp [this]

theorem recipientBeersList_keys_ne_empty (ms : List MentionSpan) (es : List Nat) :
    ∀ p ∈ recipientBeersList ms es, p.1 ≠ "" := by
  unfold recipientBeersList
  suffices h : ∀ acc, (∀ p ∈ acc, p.1 ≠ "") →
      ∀ p ∈ es.foldl (fun acc e =>
        let rr := codeSel ms e
        if rr ≠ "" then bumpAssoc acc rr else acc) acc, p.1 ≠ "" from
    h [] (by simp)
  induction es with
  | nil => intro acc hacc; exact hacc
  | cons e rest ih =>
    intro acc hacc
    rw [List.foldl_cons]
    apply ih
    by_cases hsel : codeSel ms e ≠ ""
    · simp only [if_pos hsel]
      intro p hp
      unfold bumpAssoc at hp
      split_ifs at hp
      · obtain ⟨a, ha, heq⟩ := List.mem_map.mp hp
        by_cases hk : a.1 = codeSel ms e
        · rw [if_pos hk] at heq
          rw [← heq]
          simpa [hk] using hsel
        · rw [if_neg hk] at heq
          rw [← heq]
          exact hacc a ha
      · rcases List.mem_append.mp hp with h1 | h1
        · exact hacc p h1
        · rw [List.mem_singleton.mp h1]
          exact hsel
    · simp only [if_neg hsel]
      exact hacc

theorem assocCount_zero_of_no_key (l : List (String × Nat)) (r : String)
    (h : ∀ p ∈ l, p.1 ≠ r) : assocCount l r = 0 := by
  unfold assocCount
  rw [List.find?_eq_none.mpr (fun p hp => by simpa using h p hp)]
  rfl

theorem bestFold_mem (q : MentionSpan → Bool) (ms : List MentionSpan) :
    ∀ (b : Option MentionSpan) (result : MentionSpan),
      ms.foldl (fun best m =>
        if q m then
          match best with
          | none => some m
          | some x => if x.stop < m.stop then some m else some x
        else best) b = some result →
      b = some result ∨ result ∈ ms := by
  induction ms with
  | nil => intro b result h; exact Or.inl h
  | cons m rest ih =>
    intro b result h
    rw [List.foldl_cons] at h
    rcases ih _ result h with h2 | h2
    · by_cases hq : q m = true
      · rw [if_pos hq] at h2
        cases b with
        | none =>
          have h3 : some m = some result := h2
          right
          rw [List.mem_cons]
          left
          exact (Option.some.inj h3).symm
        | some x =>
          have h3 : (if x.stop < m.stop then some m else some x) = some result := h2
          by_cases hx : x.stop < m.stop
          · rw [if_pos hx] at h3
            right
            rw [List.mem_cons]
            left
            exact (Option.some.inj h3).symm
          · rw [if_neg hx] at h3
            exact Or.inl h3
      · rw [if_neg (by simpa using hq)] at h2
        exact Or.inl h2
    · exact Or.inr (List.mem_cons_of_mem m h2)

theorem specSelStrict_mem (ms : List MentionSpan) (e : Nat) (result : MentionSpan)
    (h : specSelStrict ms e = some result) : result ∈ ms := by
  unfold specSelStrict bestByStop at h
  rcases bestFold_mem _ ms none result h with h2 | h2
  · exact absurd h2 (by simp)
  · exact h2

/-- C2 counterexample: the claim's rule attributes a marker to the mention
whose end offset is ≤ the marker's start, but the code requires it to be
strictly less (`emojiIdx[0] > mentionIdx[1]`).  On `"<@U1>🍺"` — marker
starting exactly at the mention's end offset — the claim's rule yields one
unit for `U1` while the handler yields none. -/
theorem c2_le_rule_counterexample :
    beerCount ("<@U1>🍺".toList) ("🍺".toList) "U1" = 0
    ∧ specLeCount ("<@U1>🍺".toList) ("🍺".toList) "U1" = 1 := by
  decide

/-- C2 amended: for every text, marker literal and recipient, the handler's
mapping gives each marker occurrence to the mention whose end offset is the
greatest value STRICTLY LESS than the marker's start offset (markers with no
such mention count for nobody); the spec's example
`"hey <@U1> 🍺🍺 <@U2> 🍺"` still yields exactly `{U1: 2, U2: 1}`. -/
theorem c2_strict_nearest (text emoji : List Char) (r : String) :
    beerCount text emoji r = specStrictCount text emoji r
    ∧ recipientBeersList (findMentions ("hey <@U1> 🍺🍺 <@U2> 🍺".toList))
        (findOccs ("🍺".toList) ("hey <@U1> 🍺🍺 <@U2> 🍺".toList))
      = [("U1", 2), ("U2", 1)] := by
  refine ⟨?_, by decide⟩
  unfold beerCount specStrictCount
  have hpw := findMentions_pairwise text
  have hsp := findMentions_spans text
  have hlt : ∀ m ∈ findMentions text, m.start < m.stop := fun m hm => (hsp m hm).1
  by_cases hr : r = ""
  · subst hr
    rw [assocCount_zero_of_no_key _ _ (recipientBeersList_keys_ne_empty _ _)]
    symm
    rw [List.length_eq_zero]
    rw [List.filter_eq_nil_iff]
    intro e _
    cases hsel : specSelStrict (findMentions text) e with
    | none => simp [hsel]
    | some m =>
      have hm := specSelStrict_mem _ _ _ hsel
      have hid := (hsp m hm).2.1
      simp [hsel, hid]
  · rw [recipientBeers_count _ _ r hr, List.countP_eq_length_filter]
    congr 1
    apply List.filter_congr
    intro e _
    rw [codeSel_eq_specSelStrict (findMentions text) e hpw hlt]
    cases hsel : specSelStrict (findMentions text) e with
    | none =>
      simp
      exact fun h => hr h.symm
    | some m => simp
